import Mathlib

/-!
Verification development for the `neural-bg` background-network module:
a shallow embedding of its deterministic generator (xorshift32), graph
builder, spring–damper physics stepper and render/idle scheduler, with
theorems about the properties the module is documented to have.

Numbers are modelled with exact arithmetic: the generator and all index
computations over `Nat` (with explicit `% 2^32` wrapping where the source
relies on 32-bit semantics), geometry over `ℚ`, and the physics over `ℝ`.
Distance comparisons and distance-based sorting are performed on squared
distances, which is order-equivalent to comparing the distances themselves.
-/

set_option allowUnsafeReducibility true in
attribute [semireducible] Rat.add Rat.sub Rat.mul Rat.div Rat.inv Rat.neg

set_option maxRecDepth 4000000

/-- Two to the 32nd, the wrap modulus of the 32-bit generator state. -/
def two32 : ℕ := 4294967296

/-- One xorshift32 update: `s ^= s << 13; s ^= s >>> 17; s ^= s << 5`,
with every intermediate truncated to 32 bits. -/
def xorshift (s : ℕ) : ℕ :=
  let s1 := (s ^^^ (s * 8192)) % two32
  let s2 := s1 ^^^ (s1 / 131072)
  (s2 ^^^ (s2 * 32)) % two32

/-- One generator call: the new 32-bit state together with the returned
value `s' / 2^32 ∈ [0,1)`. -/
def rngDraw (s : ℕ) : ℕ × ℚ :=
  (xorshift s, (xorshift s : ℚ) / (two32 : ℚ))

/-- The generator state after `n` calls starting from state `s`. -/
def rngIter (n : ℕ) (s : ℕ) : ℕ :=
  Nat.rec s (fun _ prev => xorshift prev) n

/-- Seed mix `(w * 73856093) ^ (h * 19349663) ^ 0xa53f9b1d`, each operand
reduced to its 32-bit pattern as JavaScript's ToInt32 does. -/
def seedMix (w h : ℕ) : ℕ :=
  ((w * 73856093) % two32) ^^^ ((h * 19349663) % two32) ^^^ 0xa53f9b1d

/-- A mesh node: current position, rest (base) position, velocity,
degree, hub flag. -/
@[ext]
structure Node (α : Type) where
  x : α
  y : α
  bx : α
  by2 : α
  vx : α
  vy : α
  deg : ℕ
  hub : Bool
  deriving Repr, DecidableEq, Inhabited

/-- A graph: an ordered list of nodes and a list of edges, each edge an
ordered pair of node indices as pushed by the builder. -/
structure Graph (α : Type) where
  nodes : List (Node α)
  edges : List (ℕ × ℕ)
  deriving Repr, DecidableEq

/-- `JavaScript Math.round` on rationals: floor of `q + 1/2`. -/
def jsRound (q : ℚ) : ℤ := Int.floor (q + 1/2)

/-- Lattice spacing `clamp(round(w/38), 30, 46)`. -/
def spacingOf (w : ℕ) : ℕ := max 30 (min 46 ((w + 19) / 38))

/-- Row pitch `spacing * 0.866`. -/
def dyOf (w : ℕ) : ℚ := (spacingOf w : ℚ) * (433/500)

/-- Column count `ceil(w / spacing) + 3`. -/
def colsOf (w : ℕ) : ℕ := (w + spacingOf w - 1) / spacingOf w + 3

/-- Row count `ceil(h / dy) + 3`, computed on the exact rational pitch:
`ceil(500 h / (433 spacing)) + 3`. -/
def rowsOf (w h : ℕ) : ℕ :=
  (500 * h + 433 * spacingOf w - 1) / (433 * spacingOf w) + 3

/-- Modify the `i`-th entry of a list in place (identity when out of range). -/
def modifyAt : List α → ℕ → (α → α) → List α
  | [], _, _ => []
  | a :: l, 0, f => f a :: l
  | a :: l, n + 1, f => a :: modifyAt l n f

/-- State threaded through graph construction: the node list, the edge
list, the set of canonical `min-max` edge keys, and the generator state. -/
structure BS where
  nodes : List (Node ℚ)
  edges : List (ℕ × ℕ)
  keys : List (ℕ × ℕ)
  s : ℕ
  deriving Repr

/-- `addEdge`: reject negative or equal endpoints, reject a duplicate
canonical key, otherwise push the edge and bump both degrees. -/
def addEdge (st : BS) (a b : ℤ) : BS :=
  if a < 0 ∨ b < 0 ∨ a = b then st
  else
    let a' := a.toNat
    let b' := b.toNat
    let k := (min a' b', max a' b')
    if k ∈ st.keys then st
    else
      { st with
        nodes := modifyAt (modifyAt st.nodes a' (fun n => { n with deg := n.deg + 1 }))
          b' (fun n => { n with deg := n.deg + 1 }),
        edges := st.edges ++ [(a', b')],
        keys := st.keys ++ [k] }

/-- Build one lattice node at row `r`, column `c`, drawing the two jitter
values; returns the node and the advanced generator state. -/
def mkNode (w : ℕ) (r c : ℕ) (s : ℕ) : Node ℚ × ℕ :=
  let spacing : ℚ := (spacingOf w : ℚ)
  let dy := dyOf w
  let rowOffset : ℚ := ((r % 2 : ℕ) : ℚ) * (spacing / 2)
  let d1 := rngDraw s
  let d2 := rngDraw d1.1
  let jx := (d1.2 - 1/2) * spacing * (18/100)
  let jy := (d2.2 - 1/2) * dy * (18/100)
  let x := (c : ℚ) * spacing + rowOffset + jx - spacing
  let y := (r : ℚ) * dy + jy - dy
  ({ x := x, y := y, bx := x, by2 := y, vx := 0, vy := 0, deg := 0, hub := false }, d2.1)

/-- Row-major node construction over the `rows × cols` lattice, threading
the generator state. -/
def buildNodes (w h : ℕ) (s0 : ℕ) : List (Node ℚ) × ℕ :=
  (List.range (rowsOf w h)).foldl
    (fun acc r =>
      (List.range (colsOf w)).foldl
        (fun acc2 c =>
          let p := mkNode w r c acc2.2
          (acc2.1 ++ [p.1], p.2))
        acc)
    ([], s0)

/-- Index of lattice cell `(r, c)`, `-1` when out of range (the source's
`idx[r][c] ?? -1`). -/
def cellIdx (rows cols : ℕ) (r c : ℤ) : ℤ :=
  if 0 ≤ r ∧ r < rows ∧ 0 ≤ c ∧ c < cols then r * cols + c else -1

/-- Wire the triangulated mesh: each cell to its right neighbour, and to
its two nearest cells in the row below, chosen by row parity. -/
def meshEdges (rows cols : ℕ) (st0 : BS) : BS :=
  (List.range rows).foldl
    (fun st r =>
      (List.range cols).foldl
        (fun st2 c =>
          let a := cellIdx rows cols r c
          let st3 := addEdge st2 a (cellIdx rows cols r (c + 1))
          if r + 1 < rows then
            if r % 2 = 0 then
              addEdge (addEdge st3 a (cellIdx rows cols (r + 1) c)) a
                (cellIdx rows cols (r + 1) ((c : ℤ) - 1))
            else
              addEdge (addEdge st3 a (cellIdx rows cols (r + 1) c)) a
                (cellIdx rows cols (r + 1) (c + 1))
          else st3)
        st)
    st0

/-- Hub count `max(8, round(nodeCount * 0.024))`, in exact natural
arithmetic: `round(n * 24/1000) = floor((48 n + 1000) / 2000)`. -/
def hubCountOf (n : ℕ) : ℕ := max 8 ((48 * n + 1000) / 2000)

/-- One random node index: `floor(rng() * n)` equals `s' * n / 2^32` in
integer arithmetic. -/
def drawPick (n s : ℕ) : ℕ × ℕ := (xorshift s * n / two32, xorshift s)

/-- The guarded redraw loop: while the pick is already chosen and fewer
than 60 redraws have happened, redraw. -/
def redraw (n : ℕ) : ℕ → List ℕ → ℕ → ℕ → ℕ × ℕ
  | 0, _, pick, s => (pick, s)
  | fuel + 1, chosen, pick, s =>
    if pick ∈ chosen then
      let p := drawPick n s
      redraw n fuel chosen p.1 p.2
    else (pick, s)

/-- Append to the ordered set unless already present (JavaScript
`Set.prototype.add` keeps insertion order and ignores duplicates). -/
def setAdd (chosen : List ℕ) (pick : ℕ) : List ℕ :=
  if pick ∈ chosen then chosen else chosen ++ [pick]

/-- Hub selection: `hubCount` rounds of draw-with-guarded-redraw; each
round flags the final pick as a hub and adds it to the chosen set. -/
def selectHubs (n hubCount : ℕ) (nodes0 : List (Node ℚ)) (s0 : ℕ) :
    List (Node ℚ) × List ℕ × ℕ :=
  (List.range hubCount).foldl
    (fun acc _ =>
      let (nodes, chosen, s) := acc
      let p0 := drawPick n s
      let pr := redraw n 60 chosen p0.1 p0.2
      (modifyAt nodes pr.1 (fun nd => { nd with hub := true }),
        setAdd chosen pr.1, pr.2))
    (nodes0, [], s0)

/-- Stable insertion of a `(index, squared distance)` candidate into an
ascending list: ties keep the earlier element first. -/
def insD (a : ℕ × ℚ) : List (ℕ × ℚ) → List (ℕ × ℚ)
  | [] => [a]
  | b :: l => if a.2 ≤ b.2 then a :: b :: l else b :: insD a l

/-- Stable sort of candidates ascending by squared distance; agrees with
the source's stable `sort((a, b) => a.d - b.d)`. -/
def sortD : List (ℕ × ℚ) → List (ℕ × ℚ)
  | [] => []
  | a :: l => insD a (sortD l)

/-- Squared Euclidean distance between two nodes' current positions. -/
def dist2 (a b : Node ℚ) : ℚ := (b.x - a.x) ^ 2 + (b.y - a.y) ^ 2

/-- The hub's candidate list: every other node strictly closer than
`spacing * 8.4`, sorted ascending by distance (squared-distance order). -/
def candidatesFor (spacing : ℕ) (nodes : List (Node ℚ)) (hubIdx : ℕ) :
    List (ℕ × ℚ) :=
  let hub := nodes.getD hubIdx default
  let maxR2 : ℚ := ((spacing : ℚ) * (84/10)) ^ 2
  sortD ((List.range nodes.length).filterMap fun j =>
    if j = hubIdx then none
    else
      let d2 := dist2 hub (nodes.getD j default)
      if d2 < maxR2 then some (j, d2) else none)

/-- Per-hub linking statistics: candidate count, drawn near-link and
far-link counts, and the number of edges actually added for this hub. -/
structure HubStat where
  hubIdx : ℕ
  cand : ℕ
  near : ℕ
  far : ℕ
  added : ℕ
  deriving Repr, DecidableEq

/-- The near-link loop of hub linking: connect the hub to the first
`min(links, candidates)` entries of the sorted candidate list. -/
def nearPhase (hubIdx links : ℕ) (cands : List (ℕ × ℚ)) (st : BS) : BS :=
  (List.range (min links cands.length)).foldl
    (fun st2 k => addEdge st2 (hubIdx : ℤ) ((cands.getD k default).1 : ℤ)) st

/-- The far-link loop of hub linking: `farLinks` draws, each indexing the
sorted candidate list from its far end; with no candidates the draw is
consumed and the pick skipped. -/
def farPhase (hubIdx farLinks : ℕ) (cands : List (ℕ × ℚ)) (st : BS) : BS :=
  (List.range farLinks).foldl
    (fun st2 _ =>
      let idxPick := xorshift st2.s * cands.length / two32
      let st' : BS := { st2 with s := xorshift st2.s }
      if cands.length = 0 then st'
      else addEdge st' (hubIdx : ℤ)
        ((cands.getD (cands.length - 1 - idxPick) default).1 : ℤ))
    st

/-- Link one hub: connect it to its nearest `8 + floor(rng()*8)`
candidates, then attempt `2 + floor(rng()*2)` far links indexed from the
tail of the sorted candidate list; duplicates are silently skipped. -/
def linkHub (spacing : ℕ) (st0 : BS) (hubIdx : ℕ) : BS × HubStat :=
  let cands := candidatesFor spacing st0.nodes hubIdx
  let links := 8 + xorshift st0.s * 8 / two32
  let st2 := nearPhase hubIdx links cands { st0 with s := (rngDraw st0.s).1 }
  let farLinks := 2 + xorshift st2.s * 2 / two32
  let st4 := farPhase hubIdx farLinks cands { st2 with s := (rngDraw st2.s).1 }
  (st4,
    { hubIdx := hubIdx, cand := cands.length, near := links, far := farLinks,
      added := st4.edges.length - st0.edges.length })

/-- Link every chosen hub in insertion order, collecting per-hub stats. -/
def linkHubs (spacing : ℕ) (st0 : BS) (chosen : List ℕ) : BS × List HubStat :=
  chosen.foldl
    (fun acc hubIdx =>
      let p := linkHub spacing acc.1 hubIdx
      (p.1, acc.2 ++ [p.2]))
    (st0, [])

/-- The full graph build, also returning the per-hub link statistics. -/
def buildGraphFull (w h : ℕ) : Graph ℚ × List HubStat :=
  let seed := seedMix w h
  let rows := rowsOf w h
  let cols := colsOf w
  let bn := buildNodes w h seed
  let st0 : BS := { nodes := bn.1, edges := [], keys := [], s := bn.2 }
  let st1 := meshEdges rows cols st0
  let n := st1.nodes.length
  let sel := selectHubs n (hubCountOf n) st1.nodes st1.s
  let st2 : BS := { st1 with nodes := sel.1, s := sel.2.2 }
  let lk := linkHubs (spacingOf w) st2 sel.2.1
  ({ nodes := lk.1.nodes, edges := lk.1.edges }, lk.2)

/-- `buildGraph(w, h)` as in the source: the graph part of the build. -/
def buildGraph (w h : ℕ) : Graph ℚ := (buildGraphFull w h).1

/-! ## Physics stepper, over the reals -/

open scoped Classical in
/-- Pointer state and interaction gate read by the stepper: the last
spacing, pointer position, active flag, last-moved timestamp, and the
externally supplied interaction-enabled boolean. -/
structure PEnv where
  spacing : ℝ
  mouseX : ℝ
  mouseY : ℝ
  mouseActive : Bool
  mouseMoveAt : ℝ
  allowInteraction : Bool

/-- The pointer-attraction radius `lastSpacing * 4.8`. -/
noncomputable def attractRadius (env : PEnv) : ℝ := env.spacing * (48/10)

/-- Whether pointer forces apply: interaction enabled, pointer active,
and moved within the last 180 ms. -/
def recentlyMoved (env : PEnv) (now : ℝ) : Prop :=
  env.allowInteraction = true ∧ env.mouseActive = true ∧ now - env.mouseMoveAt < 180

open scoped Classical in
/-- The pointer-induced acceleration on one node: inside the attraction
radius and away from the degenerate centre, a pull of magnitude
`2200 * (1 - d/R)^2` (boosted `1.34×` for hubs) along the normalized
node-to-pointer vector; zero otherwise. -/
noncomputable def pointerAccel (env : PEnv) (nd : Node ℝ) : ℝ × ℝ :=
  let R := attractRadius env
  let dx := env.mouseX - nd.x
  let dy := env.mouseY - nd.y
  let d2 := dx * dx + dy * dy
  if 1/1000000 < d2 ∧ d2 < R * R then
    let d := Real.sqrt d2
    let t := 1 - d / R
    let pull := 2200 * t * t
    let m : ℝ := if nd.hub then 134/100 else 1
    (dx / d * pull * m, dy / d * pull * m)
  else (0, 0)

open scoped Classical in
/-- The pointer force actually applied: `pointerAccel` when
`recentlyMoved`, zero otherwise. -/
noncomputable def pointerForce (env : PEnv) (now : ℝ) (nd : Node ℝ) : ℝ × ℝ :=
  if recentlyMoved env now then pointerAccel env nd else (0, 0)

/-- Horizontal acceleration: spring toward rest plus pointer pull. -/
noncomputable def accelX (env : PEnv) (now : ℝ) (nd : Node ℝ) : ℝ :=
  (nd.bx - nd.x) * (88/10) + (pointerForce env now nd).1

/-- Vertical acceleration: spring toward rest plus pointer pull. -/
noncomputable def accelY (env : PEnv) (now : ℝ) (nd : Node ℝ) : ℝ :=
  (nd.by2 - nd.y) * (88/10) + (pointerForce env now nd).2

/-- One node's simulation step: `v = (v + a*dt) * exp(-6.4 dt)`, then
`pos = pos + v*dt` (semi-implicit Euler). -/
noncomputable def stepNode (env : PEnv) (dt now : ℝ) (nd : Node ℝ) : Node ℝ :=
  let damping := Real.exp (-(64/10) * dt)
  let vx := (nd.vx + accelX env now nd * dt) * damping
  let vy := (nd.vy + accelY env now nd * dt) * damping
  { nd with vx := vx, vy := vy, x := nd.x + vx * dt, y := nd.y + vy * dt }

/-- One `step(dt, now)` call: update every node in place and return the
mean of `|vx| + |vy|` over the updated nodes (`energy / max(1, n)`). -/
noncomputable def step (env : PEnv) (dt now : ℝ) (g : Graph ℝ) : Graph ℝ × ℝ :=
  let nodes := g.nodes.map (stepNode env dt now)
  let energy := (nodes.map fun nd => |nd.vx| + |nd.vy|).sum
  ({ nodes := nodes, edges := g.edges }, energy / max 1 (g.nodes.length : ℝ))

/-- The graph after `n` step calls (timestamps supplied per call). -/
noncomputable def iterSteps (env : PEnv) (dt : ℝ) (nows : ℕ → ℝ) :
    ℕ → Graph ℝ → Graph ℝ
  | 0, g => g
  | n + 1, g => (step env dt (nows n) (iterSteps env dt nows n g)).1

/-! ## The settling recurrence and its rational interval enclosure -/

/-- The per-node scalar settling recurrence at `dt = 0.016`: offset from
rest and velocity of a node with no pointer force, starting displaced
`u₀` with zero velocity.  `(u, v) ↦ (u + v' * dt, v')` with
`v' = (v - 8.8 * u * dt) * exp(-6.4 * dt)`. -/
noncomputable def settleUV : ℕ → ℝ × ℝ
  | 0 => (10, 0)
  | n + 1 =>
    let p := settleUV n
    let v := (p.2 + (0 - p.1) * (88/10) * (16/1000)) * Real.exp (-(64/10) * (16/1000))
    (p.1 + v * (16/1000), v)

/-- Rational lower bound of `exp(-0.1024)`, the per-step damping. -/
def lamLo : ℚ := 902668412080942049 / 1000000000000000000

/-- Rational upper bound of `exp(-0.1024)`. -/
def lamHi : ℚ := 902668412080942050 / 1000000000000000000

/-- Round down to a multiple of `10^-12` (outward interval rounding). -/
def rdDn (q : ℚ) : ℚ := (Int.floor (q * 1000000000000) : ℚ) / 1000000000000

/-- Round up to a multiple of `10^-12` (outward interval rounding). -/
def rdUp (q : ℚ) : ℚ := (Int.ceil (q * 1000000000000) : ℚ) / 1000000000000

/-- A rational interval box around the settling pair `(u, v)`. -/
structure IvBox where
  ulo : ℚ
  uhi : ℚ
  vlo : ℚ
  vhi : ℚ
  deriving Repr, DecidableEq

/-- One sound interval step of the settling recurrence: the damping is
only known to lie in `[lamLo, lamHi]`, and results are rounded outward. -/
def ivStep (b : IvBox) : IvBox :=
  let tlo := b.vlo - (1408/10000) * b.uhi
  let thi := b.vhi - (1408/10000) * b.ulo
  let vlo := rdDn (min (lamLo * tlo) (lamHi * tlo))
  let vhi := rdUp (max (lamLo * thi) (lamHi * thi))
  { ulo := rdDn (b.ulo + vlo * (16/1000)),
    uhi := rdUp (b.uhi + vhi * (16/1000)),
    vlo := vlo, vhi := vhi }

/-- `k` interval steps applied to a given box. -/
def ivIterFrom (k : ℕ) (b : IvBox) : IvBox :=
  Nat.rec b (fun _ x => ivStep x) k

/-- The interval box after `n` settling steps, starting at `(10, 0)`. -/
def ivIter (n : ℕ) : IvBox :=
  Nat.rec { ulo := 10, uhi := 10, vlo := 0, vhi := 0 } (fun _ b => ivStep b) n

/-! ## Render/idle scheduler -/

/-- A rational-geometry graph viewed over the reals. -/
noncomputable def castGraph (g : Graph ℚ) : Graph ℝ :=
  { nodes := g.nodes.map fun nd =>
      { x := (nd.x : ℝ), y := (nd.y : ℝ), bx := (nd.bx : ℝ), by2 := (nd.by2 : ℝ),
        vx := (nd.vx : ℝ), vy := (nd.vy : ℝ), deg := nd.deg, hub := nd.hub },
    edges := g.edges }

/-- The module-wide simulation state: current graph, last build geometry,
pointer state, and the scheduler's running flag, frame handle and
pending-frame count (`nextHandle` models the host's fresh-id source). -/
structure SimState where
  graph : Graph ℝ
  lastW : ℕ
  lastH : ℕ
  lastSpacing : ℝ
  mouseX : ℝ
  mouseY : ℝ
  mouseActive : Bool
  mouseMoveAt : ℝ
  running : Bool
  raf : ℕ
  lastTs : ℝ
  pending : ℕ
  nextHandle : ℕ

/-- `resizeMaybeRebuild`: clamp the viewport to at least 1 pixel each
way, then rebuild the graph when forced, when either dimension moved by
more than 36 px since the last build, or when no graph exists. -/
noncomputable def resizeMaybeRebuild (winW winH : ℕ) (force : Bool)
    (st : SimState) : SimState :=
  if force = true ∨ 36 < ((max 1 winW : ℤ) - st.lastW).natAbs ∨
      36 < ((max 1 winH : ℤ) - st.lastH).natAbs ∨ st.graph.nodes.length = 0 then
    { st with
      graph := castGraph (buildGraph (max 1 winW) (max 1 winH)),
      lastW := max 1 winW, lastH := max 1 winH,
      lastSpacing := (spacingOf (max 1 winW) : ℝ) }
  else st

/-- `ensureRun`: resize (and maybe rebuild), then, only when idle, mark
running, record the wake timestamp, and schedule one frame. -/
noncomputable def ensureRun (winW winH : ℕ) (now : ℝ) (force : Bool)
    (st : SimState) : SimState :=
  let st1 := resizeMaybeRebuild winW winH force st
  if st1.running = true then st1
  else
    { st1 with
      running := true, lastTs := now, raf := st1.nextHandle,
      nextHandle := st1.nextHandle + 1, pending := st1.pending + 1 }

open scoped Classical in
/-- The tail of the frame callback: re-schedule when still settling
(metric above `0.0013`) or when the pointer moved recently, otherwise go
idle. -/
noncomputable def frameCont (e : ℝ) (env : PEnv) (ts : ℝ) (st2 : SimState) :
    SimState :=
  if 13/10000 < e ∨ recentlyMoved env ts then
    { st2 with
      raf := st2.nextHandle, nextHandle := st2.nextHandle + 1,
      pending := st2.pending + 1 }
  else
    { st2 with running := false, raf := 0 }

open scoped Classical in
/-- The frame callback firing at timestamp `ts`: consume the pending
frame; bail out if not running; otherwise clamp `dt` to `[0.008, 0.032]`
(defaulting to `0.016` when the raw gap is zero), resize/rebuild, step
the physics, and either schedule the next frame or go idle. -/
noncomputable def fireFrame (winW winH : ℕ) (allowInteraction : Bool)
    (ts : ℝ) (st : SimState) : SimState :=
  if st.pending = 0 then st
  else
    let st0 := { st with pending := st.pending - 1 }
    if st0.running = false then st0
    else
      let raw := (ts - st0.lastTs) / 1000
      let dt := min (32/1000) (max (8/1000) (if raw = 0 then 16/1000 else raw))
      let st1 := resizeMaybeRebuild winW winH false { st0 with lastTs := ts }
      let env : PEnv :=
        { spacing := st1.lastSpacing, mouseX := st1.mouseX, mouseY := st1.mouseY,
          mouseActive := st1.mouseActive, mouseMoveAt := st1.mouseMoveAt,
          allowInteraction := allowInteraction }
      let r := step env dt ts st1.graph
      frameCont r.2 env ts { st1 with graph := r.1 }

/-- The scheduler invariant: Running states hold exactly one pending
frame, Idle states none. -/
def SchedInv (st : SimState) : Prop :=
  (st.running = true ∧ st.pending = 1) ∨ (st.running = false ∧ st.pending = 0)

/-! ## Small derived notions and sample values used in concrete checks -/

/-- The canonical unordered key of an edge, as the builder's `min-max`
string keys encode it. -/
def canon (e : ℕ × ℕ) : ℕ × ℕ := (min e.1 e.2, max e.1 e.2)

/-- The number of hub-flagged nodes of a graph. -/
def countHubs (g : Graph ℚ) : ℕ := g.nodes.countP (fun nd => nd.hub)

/-- The edge-set invariant maintained by `addEdge`: every recorded edge
joins two distinct valid node indices, the key set mirrors the edge list
under the canonical `min-max` keying, and no key repeats. -/
def EInv (st : BS) : Prop :=
  (∀ e ∈ st.edges, e.1 ≠ e.2 ∧ e.1 < st.nodes.length ∧ e.2 < st.nodes.length) ∧
    st.keys = st.edges.map canon ∧ st.keys.Nodup

/-- A sample pointer environment with interaction suppressed. -/
noncomputable def envQuiet : PEnv :=
  { spacing := 30, mouseX := 0, mouseY := 0, mouseActive := false,
    mouseMoveAt := 0, allowInteraction := false }

/-- A sample pointer environment with an active, just-moved pointer at
the origin and interaction enabled. -/
noncomputable def envActive : PEnv :=
  { spacing := 30, mouseX := 0, mouseY := 0, mouseActive := true,
    mouseMoveAt := 0, allowInteraction := true }

/-- A sample node resting at the origin, displaced 10 units along x. -/
noncomputable def ndDisplaced : Node ℝ :=
  { x := 10, y := 0, bx := 0, by2 := 0, vx := 0, vy := 0, deg := 0, hub := false }

/-- A sample node at half the attraction radius of `envActive`. -/
noncomputable def ndNear : Node ℝ :=
  { x := 72, y := 0, bx := 72, by2 := 0, vx := 0, vy := 0, deg := 0, hub := false }

/-- A sample node at twice the attraction radius of `envActive`. -/
noncomputable def ndFar : Node ℝ :=
  { x := 288, y := 0, bx := 288, by2 := 0, vx := 0, vy := 0, deg := 0, hub := false }

/-- A one-node sample graph displaced 10 units from rest. -/
noncomputable def gDisplaced : Graph ℝ := { nodes := [ndDisplaced], edges := [] }

/-- A sample running scheduler state with one pending frame. -/
noncomputable def stRunning : SimState :=
  { graph := { nodes := [], edges := [] }, lastW := 100, lastH := 100,
    lastSpacing := 30, mouseX := 0, mouseY := 0, mouseActive := false,
    mouseMoveAt := 0, running := true, raf := 7, lastTs := 0, pending := 1,
    nextHandle := 8 }

/-- Membership of a real pair in an interval box. -/
def encl (b : IvBox) (p : ℝ × ℝ) : Prop :=
  (b.ulo : ℝ) ≤ p.1 ∧ p.1 ≤ (b.uhi : ℝ) ∧ (b.vlo : ℝ) ≤ p.2 ∧ p.2 ≤ (b.vhi : ℝ)

/-- The closed-form state of a node after `n` settling steps: both
coordinates scale the initial offset from rest by the shared scalar
recurrence (the dynamics are linear and the axes decouple). -/
noncomputable def evolveNode (n : ℕ) (nd : Node ℝ) : Node ℝ :=
  { nd with
    x := nd.bx + (nd.x - nd.bx) * (settleUV n).1 / 10,
    vx := (nd.x - nd.bx) * (settleUV n).2 / 10,
    y := nd.by2 + (nd.y - nd.by2) * (settleUV n).1 / 10,
    vy := (nd.y - nd.by2) * (settleUV n).2 / 10 }

/-! # Theorems -/

theorem xorshift_lt (s : ℕ) : xorshift s < two32 := by
  unfold xorshift
  exact Nat.mod_lt _ (by decide)

theorem xorshift_zero : xorshift 0 = 0 := by decide

theorem rngIter_zero (n : ℕ) : rngIter n 0 = 0 := by
  induction n with
  | zero => rfl
  | succ k ih => simpa [rngIter, xorshift_zero] using congrArg xorshift ih

/-- C10: a seed whose 32-bit value is 0 (reachable from the `w`/`h`
bit-mix, e.g. at `w = 66543743`, `h = 2`) leaves the xorshift state at 0
forever, and every generator call returns exactly 0. -/
theorem rng_zero_sticks :
    seedMix 66543743 2 = 0 ∧
      ∀ n : ℕ, rngIter n 0 = 0 ∧ (rngDraw (rngIter n 0)).2 = 0 := by
  refine ⟨by decide, fun n => ⟨rngIter_zero n, ?_⟩⟩
  rw [rngIter_zero n]
  simp [rngDraw, xorshift_zero]

/-- C1: for fixed `(w, h)` two builds agree componentwise — node count,
positions and rest positions per index, hub flags, and the edge list —
because the builder is a pure function of the seed mixed from `w`, `h`. -/
theorem buildGraph_deterministic (w h : ℕ) :
    (buildGraph w h).nodes.length = (buildGraph w h).nodes.length ∧
      (buildGraph w h).nodes.map (fun nd => (nd.x, nd.y, nd.bx, nd.by2)) =
        (buildGraph w h).nodes.map (fun nd => (nd.x, nd.y, nd.bx, nd.by2)) ∧
      (buildGraph w h).nodes.map (fun nd => nd.hub) =
        (buildGraph w h).nodes.map (fun nd => nd.hub) ∧
      (buildGraph w h).edges = (buildGraph w h).edges :=
  ⟨rfl, rfl, rfl, rfl⟩

/-- C8: any sequence of `step` calls leaves every node's rest position,
degree and hub flag, and the whole edge list, unchanged. -/
theorem step_preserves_shape (params : List (PEnv × ℝ × ℝ)) (g : Graph ℝ) :
    (params.foldl (fun gg p => (step p.1 p.2.1 p.2.2 gg).1) g).edges = g.edges ∧
      (params.foldl (fun gg p => (step p.1 p.2.1 p.2.2 gg).1) g).nodes.map
          (fun nd => (nd.bx, nd.by2, nd.deg, nd.hub)) =
        g.nodes.map (fun nd => (nd.bx, nd.by2, nd.deg, nd.hub)) := by
  induction params generalizing g with
  | nil => exact ⟨rfl, rfl⟩
  | cons p rest ih =>
    have h := ih (step p.1 p.2.1 p.2.2 g).1
    refine ⟨h.1.trans rfl, h.2.trans ?_⟩
    simp [step, stepNode, List.map_map, Function.comp]

/-- C5: one `step` call updates every node by
`v' = (v + a*dt) * exp(-6.4 dt)`, `pos' = pos + v'*dt`, with `a` the
spring acceleration plus any pointer pull, and returns the mean of
`|vx| + |vy|` over the updated nodes. -/
theorem step_updates_each_node (env : PEnv) (dt now : ℝ) (g : Graph ℝ)
    (hpos : 0 < g.nodes.length) :
    (∀ i, ∀ hi : i < g.nodes.length,
      ∃ hi' : i < (step env dt now g).1.nodes.length,
        (step env dt now g).1.nodes.get ⟨i, hi'⟩ =
          (fun nd =>
            let vx := (nd.vx + accelX env now nd * dt) * Real.exp (-(64/10) * dt)
            let vy := (nd.vy + accelY env now nd * dt) * Real.exp (-(64/10) * dt)
            { nd with vx := vx, vy := vy, x := nd.x + vx * dt, y := nd.y + vy * dt })
            (g.nodes.get ⟨i, hi⟩)) ∧
      (step env dt now g).2 =
        ((step env dt now g).1.nodes.map fun nd => |nd.vx| + |nd.vy|).sum /
          (g.nodes.length : ℝ) := by
  constructor
  · intro i hi
    have hl : (step env dt now g).1.nodes.length = g.nodes.length := by
      simp [step]
    refine ⟨hl ▸ hi, ?_⟩
    simp [step, stepNode, List.get_eq_getElem, List.getElem_map]
  · have hmax : max 1 ((g.nodes.length : ℝ)) = (g.nodes.length : ℝ) :=
      max_eq_right (by exact_mod_cast hpos)
    show (((g.nodes.map (stepNode env dt now)).map fun nd => |nd.vx| + |nd.vy|).sum) /
        max 1 ((g.nodes.length : ℝ)) = _
    rw [hmax]
    rfl

/-- Witness for C5 at a concrete one-node graph. -/
theorem step_updates_each_node_witness :
    0 < gDisplaced.nodes.length ∧
      ((∀ i, ∀ hi : i < gDisplaced.nodes.length,
        ∃ hi' : i < (step envQuiet (16/1000) 0 gDisplaced).1.nodes.length,
          (step envQuiet (16/1000) 0 gDisplaced).1.nodes.get ⟨i, hi'⟩ =
            (fun nd =>
              let vx := (nd.vx + accelX envQuiet 0 nd * (16/1000)) *
                Real.exp (-(64/10) * (16/1000))
              let vy := (nd.vy + accelY envQuiet 0 nd * (16/1000)) *
                Real.exp (-(64/10) * (16/1000))
              { nd with
                vx := vx, vy := vy, x := nd.x + vx * (16/1000),
                y := nd.y + vy * (16/1000) })
              (gDisplaced.nodes.get ⟨i, hi⟩)) ∧
        (step envQuiet (16/1000) 0 gDisplaced).2 =
          ((step envQuiet (16/1000) 0 gDisplaced).1.nodes.map
            fun nd => |nd.vx| + |nd.vy|).sum / (gDisplaced.nodes.length : ℝ)) :=
  ⟨by simp [gDisplaced],
    step_updates_each_node envQuiet (16/1000) 0 gDisplaced (by simp [gDisplaced])⟩

/-- C7: with interaction enabled and a recently moved active pointer, a
node at half the attraction radius receives a positive pull along the
node-to-pointer vector, while a node at twice the radius receives none. -/
theorem pointer_attraction_locality (env : PEnv) (now : ℝ) (nd1 nd2 : Node ℝ)
    (hallow : env.allowInteraction = true) (hact : env.mouseActive = true)
    (hrec : now - env.mouseMoveAt < 180) (hsp : 30 ≤ env.spacing)
    (h1 : (env.mouseX - nd1.x) * (env.mouseX - nd1.x) +
        (env.mouseY - nd1.y) * (env.mouseY - nd1.y) =
        attractRadius env / 2 * (attractRadius env / 2))
    (h2 : (env.mouseX - nd2.x) * (env.mouseX - nd2.x) +
        (env.mouseY - nd2.y) * (env.mouseY - nd2.y) =
        2 * attractRadius env * (2 * attractRadius env)) :
    (∃ c : ℝ, 0 < c ∧ pointerForce env now nd1 =
        (c * (env.mouseX - nd1.x), c * (env.mouseY - nd1.y))) ∧
      pointerForce env now nd2 = (0, 0) := by
  have hrm : recentlyMoved env now := ⟨hallow, hact, hrec⟩
  have hR : (144 : ℝ) ≤ attractRadius env := by
    unfold attractRadius; nlinarith
  have hRpos : (0 : ℝ) < attractRadius env := by linarith
  have hRne : attractRadius env ≠ 0 := ne_of_gt hRpos
  constructor
  · unfold pointerForce
    rw [if_pos hrm]
    unfold pointerAccel
    rw [if_pos (by constructor <;> rw [h1] <;> nlinarith)]
    have hsqrt : Real.sqrt ((env.mouseX - nd1.x) * (env.mouseX - nd1.x) +
        (env.mouseY - nd1.y) * (env.mouseY - nd1.y)) = attractRadius env / 2 := by
      rw [h1, Real.sqrt_mul_self (by linarith)]
    have hmpos : 0 < (if nd1.hub = true then (134 : ℝ)/100 else 1) := by
      split <;> norm_num
    refine ⟨2200 * (1/2) * (1/2) * (if nd1.hub = true then (134 : ℝ)/100 else 1) /
        (attractRadius env / 2), ?_, ?_⟩
    · apply div_pos
      · nlinarith [hmpos]
      · linarith
    · rw [hsqrt]
      have htval : 1 - attractRadius env / 2 / attractRadius env = 1/2 := by
        field_simp; ring
      simp only [htval, Prod.mk.injEq]
      constructor <;> · field_simp; ring
  · unfold pointerForce
    rw [if_pos hrm]
    unfold pointerAccel
    rw [if_neg]
    intro hcond
    rw [h2] at hcond
    nlinarith [hcond.2, hRpos]

/-- Witness for C7 with the pointer at the origin and nodes at 72 and
288 units (half and twice the radius 144 of spacing 30). -/
theorem pointer_attraction_locality_witness :
    envActive.allowInteraction = true ∧ envActive.mouseActive = true ∧
      (0 : ℝ) - envActive.mouseMoveAt < 180 ∧ (30 : ℝ) ≤ envActive.spacing ∧
      ((∃ c : ℝ, 0 < c ∧ pointerForce envActive 0 ndNear =
          (c * (envActive.mouseX - ndNear.x), c * (envActive.mouseY - ndNear.y))) ∧
        pointerForce envActive 0 ndFar = (0, 0)) :=
  ⟨rfl, rfl, by norm_num [envActive], by norm_num [envActive],
    pointer_attraction_locality envActive 0 ndNear ndFar rfl rfl
      (by norm_num [envActive]) (by norm_num [envActive])
      (by norm_num [envActive, ndNear, attractRadius])
      (by norm_num [envActive, ndFar, attractRadius])⟩

theorem resize_sched_fields (winW winH : ℕ) (f : Bool) (st : SimState) :
    (resizeMaybeRebuild winW winH f st).running = st.running ∧
      (resizeMaybeRebuild winW winH f st).raf = st.raf ∧
      (resizeMaybeRebuild winW winH f st).pending = st.pending ∧
      (resizeMaybeRebuild winW winH f st).nextHandle = st.nextHandle := by
  unfold resizeMaybeRebuild
  split <;> simp

theorem frameCont_inv (e : ℝ) (env : PEnv) (ts : ℝ) (st2 : SimState)
    (hrun : st2.running = true) (hpend : st2.pending = 0) :
    SchedInv (frameCont e env ts st2) := by
  unfold frameCont
  split
  · exact Or.inl ⟨hrun, by simp [hpend]⟩
  · exact Or.inr ⟨rfl, by simp [hpend]⟩

/-- C9: a wake while Running changes none of the scheduler fields (so no
extra frame is scheduled), and both the wake entry point and the frame
callback preserve the one-pending-frame invariant. -/
theorem scheduler_single_frame (winW winH : ℕ) (now ts : ℝ) (force allow : Bool)
    (st : SimState) (hinv : SchedInv st) :
    (st.running = true →
      (ensureRun winW winH now force st).running = st.running ∧
        (ensureRun winW winH now force st).raf = st.raf ∧
        (ensureRun winW winH now force st).pending = st.pending ∧
        (ensureRun winW winH now force st).nextHandle = st.nextHandle) ∧
      SchedInv (ensureRun winW winH now force st) ∧
      SchedInv (fireFrame winW winH allow ts st) := by
  obtain ⟨hr1, hr2, hr3, hr4⟩ := resize_sched_fields winW winH force st
  refine ⟨?_, ?_, ?_⟩
  · intro hrun
    unfold ensureRun
    rw [if_pos (hr1.trans hrun)]
    exact ⟨hr1, hr2, hr3, hr4⟩
  · unfold ensureRun
    rcases hinv with ⟨hrun, hpend⟩ | ⟨hrun, hpend⟩
    · rw [if_pos (hr1.trans hrun)]
      exact Or.inl ⟨hr1.trans hrun, hr3.trans hpend⟩
    · rw [if_neg (by rw [hr1, hrun]; simp)]
      exact Or.inl ⟨rfl, by simp [hr3, hpend]⟩
  · rcases hinv with ⟨hrun, hpend⟩ | ⟨hrun, hpend⟩
    · unfold fireFrame
      rw [if_neg (by rw [hpend]; simp)]
      rw [if_neg (by simp [hrun])]
      obtain ⟨hf1, hf2, hf3, hf4⟩ :=
        resize_sched_fields winW winH false
          { st with pending := st.pending - 1, lastTs := ts }
      refine frameCont_inv _ _ _ _ ?_ ?_
      · exact hf1.trans hrun
      · exact hf3.trans (by simp [hpend])
    · unfold fireFrame
      rw [if_pos hpend]
      exact Or.inr ⟨hrun, hpend⟩

/-- Witness for C9 at a concrete running state holding one pending frame. -/
theorem scheduler_single_frame_witness :
    SchedInv stRunning ∧
      ((stRunning.running = true →
        (ensureRun 100 100 5 false stRunning).running = stRunning.running ∧
          (ensureRun 100 100 5 false stRunning).raf = stRunning.raf ∧
          (ensureRun 100 100 5 false stRunning).pending = stRunning.pending ∧
          (ensureRun 100 100 5 false stRunning).nextHandle = stRunning.nextHandle) ∧
        SchedInv (ensureRun 100 100 5 false stRunning) ∧
        SchedInv (fireFrame 100 100 false 6 stRunning)) :=
  ⟨Or.inl ⟨rfl, rfl⟩,
    scheduler_single_frame 100 100 5 6 false false stRunning (Or.inl ⟨rfl, rfl⟩)⟩

theorem rdDn_le (q : ℚ) : rdDn q ≤ q := by
  unfold rdDn
  rw [div_le_iff (by norm_num : (0:ℚ) < 1000000000000)]
  exact Int.floor_le _

theorem le_rdUp (q : ℚ) : q ≤ rdUp q := by
  unfold rdUp
  rw [le_div_iff (by norm_num : (0:ℚ) < 1000000000000)]
  exact Int.le_ceil _

theorem ivMul_lower {l1 l2 lam A t : ℝ} (h1 : l1 ≤ lam) (h2 : lam ≤ l2)
    (hl : 0 < l1) (hA : A ≤ t) : min (l1 * A) (l2 * A) ≤ lam * t := by
  rcases le_or_lt 0 A with h | h
  · exact le_trans (min_le_left _ _)
      (mul_le_mul h1 hA h (le_trans hl.le h1))
  · calc min (l1 * A) (l2 * A) ≤ l2 * A := min_le_right _ _
      _ ≤ lam * A := mul_le_mul_of_nonpos_right h2 h.le
      _ ≤ lam * t := mul_le_mul_of_nonneg_left hA (by linarith)

theorem ivMul_upper {l1 l2 lam B t : ℝ} (h1 : l1 ≤ lam) (h2 : lam ≤ l2)
    (hl : 0 < l1) (hB : t ≤ B) : lam * t ≤ max (l1 * B) (l2 * B) := by
  rcases le_or_lt 0 B with h | h
  · calc lam * t ≤ lam * B := mul_le_mul_of_nonneg_left hB (by linarith)
      _ ≤ l2 * B := mul_le_mul_of_nonneg_right h2 h
      _ ≤ max (l1 * B) (l2 * B) := le_max_right _ _
  · calc lam * t ≤ lam * B := mul_le_mul_of_nonneg_left hB (by linarith)
      _ ≤ l1 * B := mul_le_mul_of_nonpos_right h1 h.le
      _ ≤ max (l1 * B) (l2 * B) := le_max_left _ _

theorem lamLo_pos : (0 : ℝ) < (lamLo : ℝ) := by
  norm_num [lamLo]

theorem lam_bounds :
    (lamLo : ℝ) ≤ Real.exp (-(64/10) * (16/1000)) ∧
      Real.exp (-(64/10) * (16/1000)) ≤ (lamHi : ℝ) := by
  have hxeq : (-(64/10) * (16/1000) : ℝ) = -(64/625) := by norm_num
  have habs : |(-(64/625) : ℝ)| ≤ 1 := by
    rw [abs_neg, abs_of_pos] <;> norm_num
  have hb := Real.exp_bound habs (n := 13) (by norm_num)
  have hsum : ∑ m ∈ Finset.range 13, (-(64/625) : ℝ) ^ m / m.factorial =
      136374375698771859300021405195834543389 / 151079149190991302020847797393798828125 := by
    norm_num [Finset.sum_range_succ, Nat.factorial]
  rw [hsum] at hb
  have herr : |(-(64/625) : ℝ)| ^ 13 * ((13 : ℕ).succ / ((13 : ℕ).factorial * 13)) ≤
      1 / 10 ^ 20 := by
    rw [abs_neg, abs_of_pos (by norm_num : (0:ℝ) < 64/625)]
    norm_num [Nat.factorial]
  have hband := abs_le.mp (hb.trans herr)
  rw [hxeq]
  constructor
  · have : (lamLo : ℝ) ≤
        136374375698771859300021405195834543389 / 151079149190991302020847797393798828125
          - 1 / 10 ^ 20 := by
      norm_num [lamLo]
    linarith [hband.2]
  · have : (136374375698771859300021405195834543389 : ℝ) /
        151079149190991302020847797393798828125 + 1 / 10 ^ 20 ≤ (lamHi : ℝ) := by
      norm_num [lamHi]
    linarith [hband.1]

theorem ivStep_sound (lam : ℝ) (h1 : (lamLo : ℝ) ≤ lam) (h2 : lam ≤ (lamHi : ℝ))
    (b : IvBox) (u v : ℝ) (hb : encl b (u, v)) :
    encl (ivStep b)
      (u + (v + (0 - u) * (88/10) * (16/1000)) * lam * (16/1000),
        (v + (0 - u) * (88/10) * (16/1000)) * lam) := by
  obtain ⟨hu1, hu2, hv1, hv2⟩ := hb
  have hlpos : (0 : ℝ) < (lamLo : ℝ) := lamLo_pos
  have htlo : ((b.vlo - (1408/10000) * b.uhi : ℚ) : ℝ) ≤
      v + (0 - u) * (88/10) * (16/1000) := by
    push_cast
    nlinarith [hu2, hv1]
  have hthi : v + (0 - u) * (88/10) * (16/1000) ≤
      ((b.vhi - (1408/10000) * b.ulo : ℚ) : ℝ) := by
    push_cast
    nlinarith [hu1, hv2]
  have hvlo : (((ivStep b).vlo : ℚ) : ℝ) ≤ (v + (0 - u) * (88/10) * (16/1000)) * lam := by
    show ((rdDn (min (lamLo * (b.vlo - (1408/10000) * b.uhi))
      (lamHi * (b.vlo - (1408/10000) * b.uhi))) : ℚ) : ℝ) ≤ _
    calc ((rdDn (min (lamLo * (b.vlo - (1408/10000) * b.uhi))
        (lamHi * (b.vlo - (1408/10000) * b.uhi))) : ℚ) : ℝ) ≤
        ((min (lamLo * (b.vlo - (1408/10000) * b.uhi))
          (lamHi * (b.vlo - (1408/10000) * b.uhi)) : ℚ) : ℝ) := by
          exact_mod_cast rdDn_le _
      _ = min ((lamLo : ℝ) * ((b.vlo - (1408/10000) * b.uhi : ℚ) : ℝ))
          ((lamHi : ℝ) * ((b.vlo - (1408/10000) * b.uhi : ℚ) : ℝ)) := by
          push_cast [Rat.cast_min]; ring_nf
      _ ≤ lam * (v + (0 - u) * (88/10) * (16/1000)) :=
          ivMul_lower h1 h2 hlpos htlo
      _ = (v + (0 - u) * (88/10) * (16/1000)) * lam := mul_comm _ _
  have hvhi : (v + (0 - u) * (88/10) * (16/1000)) * lam ≤ (((ivStep b).vhi : ℚ) : ℝ) := by
    show _ ≤ ((rdUp (max (lamLo * (b.vhi - (1408/10000) * b.ulo))
      (lamHi * (b.vhi - (1408/10000) * b.ulo))) : ℚ) : ℝ)
    calc (v + (0 - u) * (88/10) * (16/1000)) * lam =
        lam * (v + (0 - u) * (88/10) * (16/1000)) := mul_comm _ _
      _ ≤ max ((lamLo : ℝ) * ((b.vhi - (1408/10000) * b.ulo : ℚ) : ℝ))
          ((lamHi : ℝ) * ((b.vhi - (1408/10000) * b.ulo : ℚ) : ℝ)) :=
          ivMul_upper h1 h2 hlpos hthi
      _ = ((max (lamLo * (b.vhi - (1408/10000) * b.ulo))
          (lamHi * (b.vhi - (1408/10000) * b.ulo)) : ℚ) : ℝ) := by
          push_cast [Rat.cast_max]; ring_nf
      _ ≤ ((rdUp (max (lamLo * (b.vhi - (1408/10000) * b.ulo))
          (lamHi * (b.vhi - (1408/10000) * b.ulo))) : ℚ) : ℝ) := by
          exact_mod_cast le_rdUp _
  refine ⟨?_, ?_, hvlo, hvhi⟩
  · show ((rdDn (b.ulo + (ivStep b).vlo * (16/1000)) : ℚ) : ℝ) ≤ _
    have hc : ((rdDn (b.ulo + (ivStep b).vlo * (16/1000)) : ℚ) : ℝ) ≤
        ((b.ulo : ℚ) : ℝ) + (((ivStep b).vlo : ℚ) : ℝ) * (16/1000) := by
      calc ((rdDn (b.ulo + (ivStep b).vlo * (16/1000)) : ℚ) : ℝ) ≤
          ((b.ulo + (ivStep b).vlo * (16/1000) : ℚ) : ℝ) := by exact_mod_cast rdDn_le _
        _ = ((b.ulo : ℚ) : ℝ) + (((ivStep b).vlo : ℚ) : ℝ) * (16/1000) := by push_cast; ring
    nlinarith [hvlo, hu1]
  · show _ ≤ ((rdUp (b.uhi + (ivStep b).vhi * (16/1000)) : ℚ) : ℝ)
    have hc : ((b.uhi : ℚ) : ℝ) + (((ivStep b).vhi : ℚ) : ℝ) * (16/1000) ≤
        ((rdUp (b.uhi + (ivStep b).vhi * (16/1000)) : ℚ) : ℝ) := by
      calc ((b.uhi : ℚ) : ℝ) + (((ivStep b).vhi : ℚ) : ℝ) * (16/1000) =
          ((b.uhi + (ivStep b).vhi * (16/1000) : ℚ) : ℝ) := by push_cast; ring
        _ ≤ ((rdUp (b.uhi + (ivStep b).vhi * (16/1000)) : ℚ) : ℝ) := by
            exact_mod_cast le_rdUp _
    nlinarith [hvhi, hu2]

theorem ivIter_sound (n : ℕ) : encl (ivIter n) (settleUV n) := by
  induction n with
  | zero =>
    refine ⟨?_, ?_, ?_, ?_⟩ <;> norm_num [ivIter, settleUV]
  | succ k ih =>
    have hl := lam_bounds
    have hs := ivStep_sound (Real.exp (-(64/10) * (16/1000))) hl.1 hl.2
      (ivIter k) (settleUV k).1 (settleUV k).2 (by simpa using ih)
    simpa [ivIter, settleUV] using hs

theorem ivIter_eq_from (n : ℕ) :
    ivIter n = ivIterFrom n { ulo := 10, uhi := 10, vlo := 0, vhi := 0 } := rfl

theorem ivIterFrom_add (m k : ℕ) (b : IvBox) :
    ivIterFrom (m + k) b = ivIterFrom k (ivIterFrom m b) := by
  induction k with
  | zero => rfl
  | succ k ih => show ivStep (ivIterFrom (m + k) b) = _; rw [ih]; rfl

theorem ivIter401_val :
    ivIter 401 =
      { ulo := 66029957/500000000000, uhi := 132134969/1000000000000,
        vlo := -245131183/1000000000000, vhi := -122524219/500000000000 } := by
  have c1 : ivIterFrom 100 { ulo := 10, uhi := 10, vlo := 0, vhi := 0 } =
      { ulo := 876840855547/1000000000000, uhi := 175368171169/200000000000,
        vlo := -1614513537771/1000000000000, vhi := -403628384361/250000000000 } := by
    decide
  have c2 : ivIterFrom 100
      { ulo := 876840855547/1000000000000, uhi := 175368171169/200000000000,
        vlo := -1614513537771/1000000000000, vhi := -403628384361/250000000000 } =
      { ulo := 47263919837/1000000000000, uhi := 23631960941/500000000000,
        vlo := -43841952247/500000000000, vhi := -43841951121/500000000000 } := by
    decide
  have c3 : ivIterFrom 100
      { ulo := 47263919837/1000000000000, uhi := 23631960941/500000000000,
        vlo := -43841952247/500000000000, vhi := -43841951121/500000000000 } =
      { ulo := 633893323/250000000000, uhi := 507117137/200000000000,
        vlo := -2352221497/500000000000, vhi := -470442933/100000000000 } := by
    decide
  have c4 : ivIterFrom 101
      { ulo := 633893323/250000000000, uhi := 507117137/200000000000,
        vlo := -2352221497/500000000000, vhi := -470442933/100000000000 } =
      { ulo := 66029957/500000000000, uhi := 132134969/1000000000000,
        vlo := -245131183/1000000000000, vhi := -122524219/500000000000 } := by
    decide
  have h401 : (401 : ℕ) = 100 + 100 + 100 + 101 := by norm_num
  rw [ivIter_eq_from, h401, ivIterFrom_add, ivIterFrom_add, ivIterFrom_add,
    c1, c2, c3, c4]

theorem settle_v401_small : |(settleUV 401).2| < 3/10000 := by
  have hs := ivIter_sound 401
  rw [ivIter401_val] at hs
  obtain ⟨-, -, hv1, hv2⟩ := hs
  rw [abs_lt]
  constructor
  · calc (-(3/10000) : ℝ) < ((-245131183/1000000000000 : ℚ) : ℝ) := by norm_num
      _ ≤ (settleUV 401).2 := hv1
  · calc (settleUV 401).2 ≤ ((-122524219/500000000000 : ℚ) : ℝ) := hv2
      _ < 3/10000 := by norm_num

theorem stepNode_evolve (env : PEnv) (now : ℝ)
    (hallow : env.allowInteraction = false) (n : ℕ) (nd : Node ℝ) :
    stepNode env (16/1000) now (evolveNode n nd) = evolveNode (n + 1) nd := by
  have hnm : ¬ recentlyMoved env now := by
    simp [recentlyMoved, hallow]
  unfold stepNode evolveNode accelX accelY pointerForce
  rw [if_neg hnm]
  ext
  · simp only [settleUV]; ring
  · simp only [settleUV]; ring
  · rfl
  · rfl
  · simp only [settleUV]; ring
  · simp only [settleUV]; ring
  · rfl
  · rfl

theorem iterSteps_evolve (env : PEnv) (nows : ℕ → ℝ) (g : Graph ℝ)
    (hallow : env.allowInteraction = false)
    (hinit : ∀ nd ∈ g.nodes, nd.vx = 0 ∧ nd.vy = 0) (n : ℕ) :
    (iterSteps env (16/1000) nows n g).nodes = g.nodes.map (evolveNode n) := by
  induction n with
  | zero =>
    have hid : ∀ nd ∈ g.nodes, evolveNode 0 nd = nd := by
      intro nd h
      obtain ⟨hvx, hvy⟩ := hinit nd h
      unfold evolveNode
      ext
      · simp only [settleUV]; ring
      · simp only [settleUV]; ring
      · rfl
      · rfl
      · simp [settleUV, hvx]
      · simp [settleUV, hvy]
      · rfl
      · rfl
    calc (iterSteps env (16/1000) nows 0 g).nodes = g.nodes := rfl
      _ = g.nodes.map id := (List.map_id _).symm
      _ = g.nodes.map (evolveNode 0) :=
          List.map_congr_left fun nd h => (hid nd h).symm
  | succ k ih =>
    calc (iterSteps env (16/1000) nows (k + 1) g).nodes =
        (iterSteps env (16/1000) nows k g).nodes.map
          (stepNode env (16/1000) (nows k)) := rfl
      _ = (g.nodes.map (evolveNode k)).map (stepNode env (16/1000) (nows k)) := by
          rw [ih]
      _ = g.nodes.map (evolveNode (k + 1)) := by
          rw [List.map_map]
          exact List.map_congr_left fun nd _ =>
            stepNode_evolve env (nows k) hallow k nd

theorem step_metric_evolve (env : PEnv) (nows : ℕ → ℝ) (g : Graph ℝ)
    (hallow : env.allowInteraction = false)
    (hinit : ∀ nd ∈ g.nodes, nd.vx = 0 ∧ nd.vy = 0)
    (hne : g.nodes ≠ []) (n : ℕ) :
    (step env (16/1000) (nows n) (iterSteps env (16/1000) nows n g)).2 =
      ((g.nodes.map (evolveNode (n + 1))).map fun nd => |nd.vx| + |nd.vy|).sum /
        (g.nodes.length : ℝ) := by
  have hev := iterSteps_evolve env nows g hallow hinit n
  have hnodes : (iterSteps env (16/1000) nows n g).nodes.map
      (stepNode env (16/1000) (nows n)) = g.nodes.map (evolveNode (n + 1)) := by
    rw [hev, List.map_map]
    exact List.map_congr_left fun nd _ => stepNode_evolve env (nows n) hallow n nd
  have hlen : (iterSteps env (16/1000) nows n g).nodes.length =
      g.nodes.length := by rw [hev]; exact List.length_map _ _
  show (((iterSteps env (16/1000) nows n g).nodes.map
      (stepNode env (16/1000) (nows n))).map fun nd => |nd.vx| + |nd.vy|).sum /
      max 1 (((iterSteps env (16/1000) nows n g).nodes.length : ℝ)) = _
  rw [hnodes, hlen,
    max_eq_right (by exact_mod_cast List.length_pos.mpr hne : (1:ℝ) ≤ _)]

/-- C6: with interaction disabled and every node displaced 10 units from
rest with zero velocity, stepping repeatedly at `dt = 0.016` brings the
returned settling metric below `0.0013` within a bounded number of steps
(here within 400). -/
theorem settling_reaches_threshold (env : PEnv) (nows : ℕ → ℝ) (g : Graph ℝ)
    (hallow : env.allowInteraction = false) (hne : g.nodes ≠ [])
    (hdisp : ∀ nd ∈ g.nodes,
      (nd.x - nd.bx) * (nd.x - nd.bx) + (nd.y - nd.by2) * (nd.y - nd.by2) = 100 ∧
        nd.vx = 0 ∧ nd.vy = 0) :
    ∃ N, N ≤ 400 ∧
      (step env (16/1000) (nows N) (iterSteps env (16/1000) nows N g)).2 <
        13/10000 := by
  refine ⟨400, le_refl _, ?_⟩
  rw [step_metric_evolve env nows g hallow
    (fun nd h => ⟨(hdisp nd h).2.1, (hdisp nd h).2.2⟩) hne 400]
  rw [show (400 : ℕ) + 1 = 401 from rfl]
  have hlpos : (0 : ℝ) < (g.nodes.length : ℝ) := by
    exact_mod_cast List.length_pos.mpr hne
  rw [div_lt_iff hlpos]
  have hV := settle_v401_small
  have hpt : ∀ nd ∈ g.nodes.map (evolveNode 401),
      |nd.vx| + |nd.vy| ≤ 3/2 * |(settleUV 401).2| := by
    intro nd hnd
    obtain ⟨nd0, hnd0, rfl⟩ := List.mem_map.mp hnd
    obtain ⟨hsq, -, -⟩ := hdisp nd0 hnd0
    have habs : |nd0.x - nd0.bx| + |nd0.y - nd0.by2| ≤ 15 := by
      nlinarith [sq_nonneg (|nd0.x - nd0.bx| - |nd0.y - nd0.by2|),
        sq_nonneg (|nd0.x - nd0.bx| + |nd0.y - nd0.by2| - 15),
        abs_mul_abs_self (nd0.x - nd0.bx), abs_mul_abs_self (nd0.y - nd0.by2),
        abs_nonneg (nd0.x - nd0.bx), abs_nonneg (nd0.y - nd0.by2)]
    have hcomp : |(evolveNode 401 nd0).vx| + |(evolveNode 401 nd0).vy| =
        (|nd0.x - nd0.bx| + |nd0.y - nd0.by2|) * |(settleUV 401).2| / 10 := by
      show |(nd0.x - nd0.bx) * (settleUV 401).2 / 10| +
          |(nd0.y - nd0.by2) * (settleUV 401).2 / 10| = _
      rw [abs_div, abs_div, abs_mul, abs_mul]
      norm_num
      ring
    rw [hcomp]
    nlinarith [habs, abs_nonneg ((settleUV 401).2)]
  have hsum := List.sum_le_sum hpt
  have hconst : ((g.nodes.map (evolveNode 401)).map
      fun _ => 3/2 * |(settleUV 401).2|).sum =
      (g.nodes.length : ℝ) * (3/2 * |(settleUV 401).2|) := by
    rw [List.map_const', List.sum_replicate]
    simp [nsmul_eq_mul]
  rw [hconst] at hsum
  have hmul : (g.nodes.length : ℝ) * (3/2 * |(settleUV 401).2|) <
      (g.nodes.length : ℝ) * (13/10000) := by
    apply mul_lt_mul_of_pos_left ?_ hlpos
    linarith
  calc ((g.nodes.map (evolveNode 401)).map fun nd => |nd.vx| + |nd.vy|).sum ≤
      (g.nodes.length : ℝ) * (3/2 * |(settleUV 401).2|) := hsum
    _ < (g.nodes.length : ℝ) * (13/10000) := hmul
    _ = 13/10000 * (g.nodes.length : ℝ) := mul_comm _ _

/-- Witness for C6 on a concrete one-node graph displaced 10 units. -/
theorem settling_reaches_threshold_witness :
    envQuiet.allowInteraction = false ∧ gDisplaced.nodes ≠ [] ∧
      (∀ nd ∈ gDisplaced.nodes,
        (nd.x - nd.bx) * (nd.x - nd.bx) + (nd.y - nd.by2) * (nd.y - nd.by2) = 100 ∧
          nd.vx = 0 ∧ nd.vy = 0) ∧
      (∃ N, N ≤ 400 ∧
        (step envQuiet (16/1000) ((fun _ => 0) N)
          (iterSteps envQuiet (16/1000) (fun _ => 0) N gDisplaced)).2 < 13/10000) :=
  ⟨rfl, by simp [gDisplaced],
    by
      intro nd h
      simp only [gDisplaced, List.mem_singleton] at h
      subst h
      refine ⟨by norm_num [ndDisplaced], by norm_num [ndDisplaced],
        by norm_num [ndDisplaced]⟩,
    settling_reaches_threshold envQuiet (fun _ => 0) gDisplaced rfl
      (by simp [gDisplaced])
      (by
        intro nd h
        simp only [gDisplaced, List.mem_singleton] at h
        subst h
        refine ⟨by norm_num [ndDisplaced], by norm_num [ndDisplaced],
          by norm_num [ndDisplaced]⟩)⟩

theorem foldl_pres {α β : Type} (P : β → Prop) (f : β → α → β) (l : List α)
    (st : β) (h0 : P st) (hstep : ∀ acc x, x ∈ l → P acc → P (f acc x)) :
    P (l.foldl f st) := by
  induction l generalizing st with
  | nil => exact h0
  | cons a t ih =>
    exact ih (f st a) (hstep st a (List.mem_cons_self a t) h0)
      (fun acc x hx => hstep acc x (List.mem_cons_of_mem a hx))

theorem foldl_le_step {α β : Type} (meas : β → ℕ) (f : β → α → β)
    (l : List α) (st : β) (hf : ∀ acc x, meas (f acc x) ≤ meas acc + 1) :
    meas (l.foldl f st) ≤ meas st + l.length := by
  induction l generalizing st with
  | nil => simp
  | cons a t ih =>
    calc meas ((a :: t).foldl f st) = meas (t.foldl f (f st a)) := rfl
      _ ≤ meas (f st a) + t.length := ih (f st a)
      _ ≤ meas st + 1 + t.length := by
          have := hf st a; omega
      _ = meas st + (a :: t).length := by simp; omega

theorem modifyAt_length {α : Type} (l : List α) (i : ℕ) (f : α → α) :
    (modifyAt l i f).length = l.length := by
  induction l generalizing i with
  | nil => rfl
  | cons a t ih =>
    cases i with
    | zero => rfl
    | succ j => simpa [modifyAt] using ih j

theorem modifyAt_map_eq {α β : Type} (g : α → β) (l : List α) (i : ℕ)
    (f : α → α) (h : ∀ a, g (f a) = g a) :
    (modifyAt l i f).map g = l.map g := by
  induction l generalizing i with
  | nil => rfl
  | cons a t ih =>
    cases i with
    | zero => simp [modifyAt, h]
    | succ j => simp [modifyAt, ih j]

theorem modifyAt_getD_self {α : Type} (l : List α) (i : ℕ) (f : α → α) (d : α)
    (h : i < l.length) : (modifyAt l i f).getD i d = f (l.getD i d) := by
  induction l generalizing i with
  | nil => simp at h
  | cons a t ih =>
    cases i with
    | zero => rfl
    | succ j => simpa [modifyAt] using ih j (by simpa using h)

theorem modifyAt_getD_ne {α : Type} (l : List α) (i j : ℕ) (f : α → α) (d : α)
    (h : i ≠ j) : (modifyAt l j f).getD i d = l.getD i d := by
  induction l generalizing i j with
  | nil => rfl
  | cons a t ih =>
    cases j with
    | zero =>
      cases i with
      | zero => exact absurd rfl h
      | succ k => rfl
    | succ j' =>
      cases i with
      | zero => rfl
      | succ k => simpa [modifyAt] using ih k j' (by omega)

theorem getD_mem {α : Type} (l : List α) (k : ℕ) (d : α) (h : k < l.length) :
    l.getD k d ∈ l := by
  induction l generalizing k with
  | nil => simp at h
  | cons a t ih =>
    cases k with
    | zero => exact List.mem_cons_self a t
    | succ j =>
      exact List.mem_cons_of_mem a (ih j (by simpa using h))

theorem addEdge_nodes_length (st : BS) (a b : ℤ) :
    (addEdge st a b).nodes.length = st.nodes.length := by
  unfold addEdge
  split
  · rfl
  · dsimp only
    split
    · rfl
    · simp [modifyAt_length]

theorem addEdge_s (st : BS) (a b : ℤ) : (addEdge st a b).s = st.s := by
  unfold addEdge
  split
  · rfl
  · dsimp only
    split <;> rfl

theorem addEdge_hub_map (st : BS) (a b : ℤ) :
    (addEdge st a b).nodes.map (fun nd => nd.hub) =
      st.nodes.map (fun nd => nd.hub) := by
  unfold addEdge
  split
  · rfl
  · dsimp only
    split
    · rfl
    · show List.map (fun nd => nd.hub)
          (modifyAt (modifyAt st.nodes a.toNat fun n => { n with deg := n.deg + 1 })
            b.toNat fun n => { n with deg := n.deg + 1 }) =
        List.map (fun nd => nd.hub) st.nodes
      exact Eq.trans
        (modifyAt_map_eq (fun (nd : Node ℚ) => nd.hub) _ b.toNat _ (fun n => rfl))
        (modifyAt_map_eq (fun (nd : Node ℚ) => nd.hub) _ a.toNat _ (fun n => rfl))

theorem addEdge_edges_le (st : BS) (a b : ℤ) :
    (addEdge st a b).edges.length ≤ st.edges.length + 1 := by
  unfold addEdge
  split
  · omega
  · dsimp only
    split
    · omega
    · simp

theorem addEdge_edges_ge (st : BS) (a b : ℤ) :
    st.edges.length ≤ (addEdge st a b).edges.length := by
  unfold addEdge
  split
  · omega
  · dsimp only
    split
    · omega
    · simp

theorem addEdge_inv (st : BS) (a b : ℤ)
    (ha : 0 ≤ a → a.toNat < st.nodes.length)
    (hb : 0 ≤ b → b.toNat < st.nodes.length)
    (h : EInv st) : EInv (addEdge st a b) := by
  obtain ⟨hvalid, hkeys, hnodup⟩ := h
  unfold addEdge
  split
  · exact ⟨hvalid, hkeys, hnodup⟩
  · rename_i hneg
    push_neg at hneg
    obtain ⟨ha0, hb0, hab⟩ := hneg
    dsimp only
    split
    · exact ⟨hvalid, hkeys, hnodup⟩
    · rename_i hmem
      refine ⟨?_, ?_, ?_⟩
      · intro e he
        replace he : e ∈ st.edges ++ [(a.toNat, b.toNat)] := he
        rw [List.mem_append] at he
        rcases he with he | he
        · have := hvalid e he
          simpa [modifyAt_length] using this
        · rw [List.mem_singleton] at he
          subst he
          refine ⟨?_, ?_, ?_⟩
          · intro hEq
            have h' : a.toNat = b.toNat := hEq
            exact hab (by
              rw [← Int.toNat_of_nonneg ha0, ← Int.toNat_of_nonneg hb0, h'])
          · show a.toNat < _
            simpa [modifyAt_length] using ha ha0
          · show b.toNat < _
            simpa [modifyAt_length] using hb hb0
      · show st.keys ++ [(min a.toNat b.toNat, max a.toNat b.toNat)] =
          List.map canon (st.edges ++ [(a.toNat, b.toNat)])
        rw [List.map_append, hkeys]
        rfl
      · show (st.keys ++ [(min a.toNat b.toNat, max a.toNat b.toNat)]).Nodup
        rw [List.nodup_append]
        refine ⟨hnodup, List.nodup_singleton _, ?_⟩
        intro k hk hk'
        rw [List.mem_singleton] at hk'
        subst hk'
        exact hmem hk

theorem foldl_length_stepk {γ δ : Type} (F : List δ × ℕ → γ → List δ × ℕ) (k : ℕ)
    (hF : ∀ acc x, (F acc x).1.length = acc.1.length + k) (l : List γ)
    (acc : List δ × ℕ) :
    (l.foldl F acc).1.length = acc.1.length + l.length * k := by
  induction l generalizing acc with
  | nil => simp
  | cons a t ih =>
    calc ((a :: t).foldl F acc).1.length = (t.foldl F (F acc a)).1.length := rfl
      _ = (F acc a).1.length + t.length * k := ih (F acc a)
      _ = acc.1.length + (a :: t).length * k := by rw [hF]; simp; ring

theorem buildNodes_length (w h s0 : ℕ) :
    (buildNodes w h s0).1.length = rowsOf w h * colsOf w := by
  unfold buildNodes
  rw [foldl_length_stepk _ (colsOf w) ?inner]
  · simp
  case inner =>
    intro acc r
    rw [foldl_length_stepk _ 1 (fun acc2 c => by simp)]
    simp

theorem buildNodes_hub_false (w h s0 : ℕ) :
    ∀ nd ∈ (buildNodes w h s0).1, nd.hub = false := by
  unfold buildNodes
  refine foldl_pres (fun (acc : List (Node ℚ) × ℕ) => ∀ nd ∈ acc.1, nd.hub = false) _ _ _ ?_ ?_
  · intro nd hnd; simp at hnd
  · intro acc r _ hP
    refine foldl_pres (fun (acc2 : List (Node ℚ) × ℕ) => ∀ nd ∈ acc2.1, nd.hub = false) _ _ _ ?_ ?_
    · exact hP
    · intro acc2 c _ hP2 nd hnd
      rw [List.mem_append] at hnd
      rcases hnd with hnd | hnd
      · exact hP2 nd hnd
      · rw [List.mem_singleton] at hnd
        subst hnd
        rfl

theorem buildNodes_s_zero (w h : ℕ) : (buildNodes w h 0).2 = 0 := by
  unfold buildNodes
  refine foldl_pres (fun (acc : List (Node ℚ) × ℕ) => acc.2 = 0) _ _ _ ?_ ?_
  · rfl
  · intro acc r _ hP
    refine foldl_pres (fun (acc2 : List (Node ℚ) × ℕ) => acc2.2 = 0) _ _ _ ?_ ?_
    · exact hP
    · intro acc2 c _ hP2
      show (mkNode w r c acc2.2).2 = 0
      rw [hP2]
      simp [mkNode, rngDraw, xorshift_zero]

theorem cellIdx_valid (rows cols : ℕ) (r c : ℤ)
    (h : 0 ≤ cellIdx rows cols r c) :
    (cellIdx rows cols r c).toNat < rows * cols := by
  unfold cellIdx at h ⊢
  split at h
  · rename_i hcond
    obtain ⟨h0r, hrR, h0c, hcC⟩ := hcond
    rw [if_pos ⟨h0r, hrR, h0c, hcC⟩]
    have hstep : (r + 1) * (cols : ℤ) ≤ (rows : ℤ) * (cols : ℤ) :=
      mul_le_mul_of_nonneg_right (by omega) (by positivity)
    have hlt : r * (cols : ℤ) + c < ((rows * cols : ℕ) : ℤ) := by
      push_cast
      nlinarith [hcC]
    generalize hv : r * (cols : ℤ) + c = v at hlt h ⊢
    omega
  · exact absurd h (by norm_num)

theorem meshEdges_pres (rows cols : ℕ) (st0 : BS) (h : EInv st0)
    (hlen : st0.nodes.length = rows * cols) :
    EInv (meshEdges rows cols st0) ∧
      (meshEdges rows cols st0).nodes.length = rows * cols ∧
      (meshEdges rows cols st0).nodes.map (fun nd => nd.hub) =
        st0.nodes.map (fun nd => nd.hub) ∧
      (meshEdges rows cols st0).s = st0.s := by
  have key : ∀ (stx : BS) (p q u v : ℤ),
      (EInv stx ∧ stx.nodes.length = rows * cols ∧
        stx.nodes.map (fun nd => nd.hub) = st0.nodes.map (fun nd => nd.hub) ∧
        stx.s = st0.s) →
      (EInv (addEdge stx (cellIdx rows cols p q) (cellIdx rows cols u v)) ∧
        (addEdge stx (cellIdx rows cols p q) (cellIdx rows cols u v)).nodes.length =
          rows * cols ∧
        (addEdge stx (cellIdx rows cols p q) (cellIdx rows cols u v)).nodes.map
          (fun nd => nd.hub) = st0.nodes.map (fun nd => nd.hub) ∧
        (addEdge stx (cellIdx rows cols p q) (cellIdx rows cols u v)).s = st0.s) := by
    intro stx p q u v ⟨hi, hl, hh, hss⟩
    refine ⟨addEdge_inv _ _ _ ?_ ?_ hi, ?_, ?_, ?_⟩
    · intro h0
      rw [hl]
      exact cellIdx_valid rows cols p q h0
    · intro h0
      rw [hl]
      exact cellIdx_valid rows cols u v h0
    · rw [addEdge_nodes_length]; exact hl
    · rw [addEdge_hub_map]; exact hh
    · rw [addEdge_s]; exact hss
  unfold meshEdges
  refine foldl_pres (fun (st : BS) => EInv st ∧ st.nodes.length = rows * cols ∧
    st.nodes.map (fun nd => nd.hub) = st0.nodes.map (fun nd => nd.hub) ∧
    st.s = st0.s) _ _ _ ?_ ?_
  · exact ⟨h, hlen, rfl, rfl⟩
  · intro acc r _ hP
    refine foldl_pres (fun (st : BS) => EInv st ∧ st.nodes.length = rows * cols ∧
      st.nodes.map (fun nd => nd.hub) = st0.nodes.map (fun nd => nd.hub) ∧
      st.s = st0.s) _ _ _ ?_ ?_
    · exact hP
    · intro acc2 c _ hP2
      dsimp only
      split
      · split
        · exact key _ _ _ _ _ (key _ _ _ _ _ (key _ _ _ _ _ hP2))
        · exact key _ _ _ _ _ (key _ _ _ _ _ (key _ _ _ _ _ hP2))
      · exact key _ _ _ _ _ hP2

theorem drawPick_lt (n s : ℕ) (hn : 1 ≤ n) : (drawPick n s).1 < n := by
  show xorshift s * n / two32 < n
  rw [Nat.div_lt_iff_lt_mul (by decide : 0 < two32)]
  calc xorshift s * n < two32 * n := by
        nlinarith [xorshift_lt s, hn]
    _ = n * two32 := Nat.mul_comm _ _

theorem redraw_lt (n : ℕ) (hn : 1 ≤ n) (fuel : ℕ) :
    ∀ (chosen : List ℕ) (pick s : ℕ), pick < n →
      (redraw n fuel chosen pick s).1 < n := by
  induction fuel with
  | zero => intro _ pick _ h; exact h
  | succ f ih =>
    intro chosen pick s h
    unfold redraw
    split
    · exact ih chosen _ _ (drawPick_lt n _ hn)
    · exact h

theorem setAdd_nodup (c : List ℕ) (p : ℕ) (h : c.Nodup) : (setAdd c p).Nodup := by
  unfold setAdd
  split
  · exact h
  · rename_i hmem
    rw [List.nodup_append]
    exact ⟨h, List.nodup_singleton _, fun k hk hk' => by
      rw [List.mem_singleton] at hk'
      subst hk'
      exact hmem hk⟩

theorem setAdd_mem_iff (c : List ℕ) (p j : ℕ) :
    j ∈ setAdd c p ↔ j ∈ c ∨ j = p := by
  unfold setAdd
  split
  · rename_i hmem
    constructor
    · exact Or.inl
    · rintro (h | rfl)
      · exact h
      · exact hmem
  · simp [List.mem_append]

theorem setAdd_ne_nil (c : List ℕ) (p : ℕ) : setAdd c p ≠ [] := by
  unfold setAdd
  split
  · rename_i hmem
    exact List.ne_nil_of_mem hmem
  · simp

theorem setAdd_length_le (c : List ℕ) (p : ℕ) :
    (setAdd c p).length ≤ c.length + 1 := by
  unfold setAdd
  split
  · omega
  · simp

theorem selectHubs_spec (n hubCount : ℕ) (nodes0 : List (Node ℚ)) (s0 : ℕ)
    (hn : 1 ≤ n) (hlen : nodes0.length = n) :
    (selectHubs n hubCount nodes0 s0).1.length = n ∧
      (selectHubs n hubCount nodes0 s0).2.1.Nodup ∧
      (∀ j ∈ (selectHubs n hubCount nodes0 s0).2.1, j < n) ∧
      (∀ i : ℕ, ((selectHubs n hubCount nodes0 s0).1.getD i default).hub =
        ((nodes0.getD i default).hub ||
          decide (i ∈ (selectHubs n hubCount nodes0 s0).2.1))) := by
  unfold selectHubs
  refine foldl_pres (fun (acc : List (Node ℚ) × List ℕ × ℕ) =>
    acc.1.length = n ∧ acc.2.1.Nodup ∧ (∀ j ∈ acc.2.1, j < n) ∧
      (∀ i : ℕ, ((acc.1.getD i default).hub =
        ((nodes0.getD i default).hub || decide (i ∈ acc.2.1)))))
    _ _ _ ?_ ?_
  · refine ⟨hlen, List.nodup_nil, by simp, ?_⟩
    intro i
    simp
  · rintro ⟨nodes, chosen, s⟩ x _ ⟨hl, hnd, hmem, hflag⟩
    dsimp only
    have hpick : (redraw n 60 chosen (drawPick n s).1 (drawPick n s).2).1 < n :=
      redraw_lt n hn 60 chosen _ _ (drawPick_lt n s hn)
    set pick := (redraw n 60 chosen (drawPick n s).1 (drawPick n s).2).1 with hpickdef
    refine ⟨by rw [modifyAt_length]; exact hl, setAdd_nodup _ _ hnd, ?_, ?_⟩
    · intro j hj
      rw [setAdd_mem_iff] at hj
      rcases hj with hj | rfl
      · exact hmem j hj
      · exact hpick
    · intro i
      by_cases hip : i = pick
      · rw [hip, modifyAt_getD_self _ _ _ _ (by rw [hl]; exact hpick)]
        have hdec : decide (pick ∈ setAdd chosen pick) = true := by
          simp [setAdd_mem_iff]
        rw [hdec]
        simp
      · have hiff : (i ∈ setAdd chosen pick) ↔ (i ∈ chosen) := by
          rw [setAdd_mem_iff]
          exact ⟨fun hc => hc.resolve_right hip, Or.inl⟩
        rw [modifyAt_getD_ne _ _ _ _ _ hip, hflag i,
          decide_eq_decide.mpr hiff]

theorem selectHubs_length_le (n hubCount : ℕ) (nodes0 : List (Node ℚ)) (s0 : ℕ) :
    (selectHubs n hubCount nodes0 s0).2.1.length ≤ hubCount := by
  unfold selectHubs
  exact (foldl_le_step
    (fun (acc : List (Node ℚ) × List ℕ × ℕ) => acc.2.1.length)
    _ (List.range hubCount) (nodes0, ([] : List ℕ), s0)
    (by
      rintro ⟨nodes, chosen, s⟩ x
      dsimp only
      exact setAdd_length_le _ _)).trans (by simp)

theorem selectHubs_chosen_ne_nil (n hubCount : ℕ) (nodes0 : List (Node ℚ))
    (s0 : ℕ) (hc : 1 ≤ hubCount) :
    (selectHubs n hubCount nodes0 s0).2.1 ≠ [] := by
  obtain ⟨k, rfl⟩ : ∃ k, hubCount = k + 1 := ⟨hubCount - 1, by omega⟩
  unfold selectHubs
  rw [List.range_succ, List.foldl_append]
  rw [List.foldl_cons, List.foldl_nil]
  exact setAdd_ne_nil _ _

theorem countP_of_map_hub_eq (l1 l2 : List (Node ℚ))
    (h : l1.map (fun nd => nd.hub) = l2.map (fun nd => nd.hub)) :
    l1.countP (fun nd => nd.hub) = l2.countP (fun nd => nd.hub) := by
  have h1 : (l1.map (fun nd => nd.hub)).countP (fun b => b) =
      (l2.map (fun nd => nd.hub)).countP (fun b => b) := by rw [h]
  rwa [List.countP_map, List.countP_map] at h1

theorem hub_false_of_map_eq (l1 l2 : List (Node ℚ))
    (h : l1.map (fun nd => nd.hub) = l2.map (fun nd => nd.hub))
    (h2 : ∀ nd ∈ l2, nd.hub = false) : ∀ nd ∈ l1, nd.hub = false := by
  intro nd hnd
  have : nd.hub ∈ l1.map (fun nd => nd.hub) := List.mem_map_of_mem _ hnd
  rw [h] at this
  obtain ⟨nd2, hnd2, heq⟩ := List.mem_map.mp this
  rw [← heq]
  exact h2 nd2 hnd2

theorem selectHubs_countP (n hubCount : ℕ) (nodes0 : List (Node ℚ)) (s0 : ℕ)
    (hn : 1 ≤ n) (hlen : nodes0.length = n)
    (hflags : ∀ nd ∈ nodes0, nd.hub = false) :
    (selectHubs n hubCount nodes0 s0).1.countP (fun nd => nd.hub) =
      (selectHubs n hubCount nodes0 s0).2.1.length := by
  obtain ⟨hL, hnd, hmem, hflag⟩ := selectHubs_spec n hubCount nodes0 s0 hn hlen
  set r := selectHubs n hubCount nodes0 s0 with hr
  have hmap : r.1.map (fun nd => nd.hub) =
      (List.range n).map (fun i => decide (i ∈ r.2.1)) := by
    apply List.ext_getElem
    · simp [hL]
    · intro i h1 h2
      rw [List.getElem_map, List.getElem_map, List.getElem_range]
      have hin : i < n := by simpa [hL] using h1
      have hb : i < r.1.length := by simpa [hL] using hin
      have hb0 : i < nodes0.length := by omega
      have hgd : r.1.getD i default = r.1[i] := by
        rw [List.getD_eq_getElem?_getD, List.getElem?_eq_getElem]
        rfl
      have hgd0 : nodes0.getD i default = nodes0[i] := by
        rw [List.getD_eq_getElem?_getD, List.getElem?_eq_getElem]
        rfl
      have hfi := hflag i
      rw [hgd, hgd0] at hfi
      rw [hfi, hflags (nodes0[i]) (List.getElem_mem _)]
      simp
  have hperm : List.Perm ((List.range n).filter (fun i => decide (i ∈ r.2.1)))
      r.2.1 := by
    rw [List.perm_ext_iff_of_nodup (List.Nodup.filter _ (List.nodup_range n)) hnd]
    intro a
    rw [List.mem_filter, List.mem_range]
    constructor
    · rintro ⟨_, h2⟩
      exact of_decide_eq_true h2
    · intro h
      exact ⟨hmem a h, decide_eq_true h⟩
  calc r.1.countP (fun nd => nd.hub) =
      (r.1.map (fun nd => nd.hub)).countP (fun b => b) :=
        (List.countP_map (fun b => b) (fun (nd : Node ℚ) => nd.hub) r.1).symm
    _ = ((List.range n).map (fun i => decide (i ∈ r.2.1))).countP (fun b => b) := by
        rw [hmap]
    _ = (List.range n).countP (fun i => decide (i ∈ r.2.1)) :=
        List.countP_map (fun b => b) (fun i => decide (i ∈ r.2.1)) (List.range n)
    _ = ((List.range n).filter (fun i => decide (i ∈ r.2.1))).length := by
        rw [List.countP_eq_length_filter]
    _ = r.2.1.length := hperm.length_eq

theorem drawPick_zero (n : ℕ) : drawPick n 0 = (0, 0) := by
  simp [drawPick, xorshift_zero]

theorem redraw_zero (n : ℕ) (fuel : ℕ) : redraw n fuel [0] 0 0 = (0, 0) := by
  induction fuel with
  | zero => rfl
  | succ f ih =>
    unfold redraw
    rw [if_pos (List.mem_singleton.mpr rfl)]
    rw [show drawPick n 0 = (0, 0) from drawPick_zero n]
    exact ih

theorem selectHubs_zero (n hubCount : ℕ) (nodes0 : List (Node ℚ))
    (hc : 1 ≤ hubCount) :
    (selectHubs n hubCount nodes0 0).2.1 = [0] ∧
      (selectHubs n hubCount nodes0 0).2.2 = 0 := by
  obtain ⟨k, rfl⟩ : ∃ k, hubCount = k + 1 := ⟨hubCount - 1, by omega⟩
  induction k with
  | zero =>
    constructor <;>
      simp [selectHubs, List.range_succ, drawPick_zero, redraw, setAdd]
  | succ k ih =>
    have ih' := ih (by omega)
    unfold selectHubs at ih' ⊢
    rw [List.range_succ, List.foldl_append, List.foldl_cons, List.foldl_nil]
    set prev := (List.range (k + 1)).foldl
      (fun (acc : List (Node ℚ) × List ℕ × ℕ) _ =>
        let (nodes, chosen, s) := acc
        let p0 := drawPick n s
        let pr := redraw n 60 chosen p0.1 p0.2
        (modifyAt nodes pr.1 (fun nd => { nd with hub := true }),
          setAdd chosen pr.1, pr.2)) (nodes0, [], 0) with hprev
    obtain ⟨hch, hs⟩ := ih'
    have hprev_eq : prev = (prev.1, [0], 0) := Prod.ext rfl (Prod.ext hch hs)
    rw [hprev_eq]
    dsimp only
    rw [drawPick_zero, redraw_zero]
    constructor
    · show setAdd [0] 0 = [0]
      simp [setAdd]
    · rfl

theorem insD_mem (a : ℕ × ℚ) (l : List (ℕ × ℚ)) (x : ℕ × ℚ)
    (h : x ∈ insD a l) : x = a ∨ x ∈ l := by
  induction l with
  | nil => simpa [insD] using h
  | cons b t ih =>
    unfold insD at h
    split at h
    · rcases List.mem_cons.mp h with h | h
      · exact Or.inl h
      · exact Or.inr h
    · rcases List.mem_cons.mp h with h | h
      · exact Or.inr (h ▸ List.mem_cons_self b t)
      · rcases ih h with h | h
        · exact Or.inl h
        · exact Or.inr (List.mem_cons_of_mem b h)

theorem sortD_mem (l : List (ℕ × ℚ)) (x : ℕ × ℚ) (h : x ∈ sortD l) : x ∈ l := by
  induction l with
  | nil => simpa [sortD] using h
  | cons a t ih =>
    unfold sortD at h
    rcases insD_mem a (sortD t) x h with h | h
    · exact h ▸ List.mem_cons_self a t
    · exact List.mem_cons_of_mem a (ih h)

theorem candidatesFor_lt (sp : ℕ) (nodes : List (Node ℚ)) (hub : ℕ) :
    ∀ p ∈ candidatesFor sp nodes hub, p.1 < nodes.length := by
  intro p hp
  unfold candidatesFor at hp
  have hp' := sortD_mem _ _ hp
  rw [List.mem_filterMap] at hp'
  obtain ⟨j, hj, heq⟩ := hp'
  rw [List.mem_range] at hj
  dsimp only at heq
  split at heq
  · exact absurd heq (by simp)
  · split at heq
    · cases heq
      exact hj
    · exact absurd heq (by simp)

theorem addEdge_bundle (st : BS) (N : ℕ) (M : List Bool) (a b : ℤ)
    (ha : 0 ≤ a → a.toNat < N) (hb : 0 ≤ b → b.toNat < N)
    (h : EInv st ∧ st.nodes.length = N ∧
      st.nodes.map (fun nd => nd.hub) = M) :
    EInv (addEdge st a b) ∧ (addEdge st a b).nodes.length = N ∧
      (addEdge st a b).nodes.map (fun nd => nd.hub) = M := by
  obtain ⟨hi, hl, hm⟩ := h
  refine ⟨addEdge_inv _ _ _ ?_ ?_ hi, ?_, ?_⟩
  · intro h0; rw [hl]; exact ha h0
  · intro h0; rw [hl]; exact hb h0
  · rw [addEdge_nodes_length]; exact hl
  · rw [addEdge_hub_map]; exact hm

theorem nearPhase_bundle (hubIdx links : ℕ) (cands : List (ℕ × ℚ)) (st : BS)
    (N : ℕ) (M : List Bool) (hhub : hubIdx < N)
    (hcands : ∀ p ∈ cands, p.1 < N)
    (h : EInv st ∧ st.nodes.length = N ∧
      st.nodes.map (fun nd => nd.hub) = M) :
    EInv (nearPhase hubIdx links cands st) ∧
      (nearPhase hubIdx links cands st).nodes.length = N ∧
      (nearPhase hubIdx links cands st).nodes.map (fun nd => nd.hub) = M := by
  unfold nearPhase
  refine foldl_pres (fun (st2 : BS) => EInv st2 ∧ st2.nodes.length = N ∧
      st2.nodes.map (fun nd => nd.hub) = M) _ _ _ h ?_
  intro acc k hk hP
  rw [List.mem_range] at hk
  refine addEdge_bundle _ _ _ _ _ ?_ ?_ hP
  · intro _; simpa using hhub
  · intro _
    have : (cands.getD k default).1 < N :=
      hcands _ (getD_mem _ _ _ (by omega))
    simpa using this

theorem farPhase_bundle (hubIdx farLinks : ℕ) (cands : List (ℕ × ℚ)) (st : BS)
    (N : ℕ) (M : List Bool) (hhub : hubIdx < N)
    (hcands : ∀ p ∈ cands, p.1 < N)
    (h : EInv st ∧ st.nodes.length = N ∧
      st.nodes.map (fun nd => nd.hub) = M) :
    EInv (farPhase hubIdx farLinks cands st) ∧
      (farPhase hubIdx farLinks cands st).nodes.length = N ∧
      (farPhase hubIdx farLinks cands st).nodes.map (fun nd => nd.hub) = M := by
  unfold farPhase
  refine foldl_pres (fun (st2 : BS) => EInv st2 ∧ st2.nodes.length = N ∧
      st2.nodes.map (fun nd => nd.hub) = M) _ _ _ h ?_
  intro acc k _ hP
  dsimp only
  split
  · exact hP
  · rename_i hlen0
    have hpos : 0 < cands.length := Nat.pos_of_ne_zero hlen0
    refine addEdge_bundle _ _ _ _ _ ?_ ?_ hP
    · intro _; simpa using hhub
    · intro _
      have : (cands.getD
          (cands.length - 1 - xorshift acc.s * cands.length / two32) default).1 <
          N := hcands _ (getD_mem _ _ _
        (lt_of_le_of_lt (Nat.sub_le _ _) (Nat.sub_lt hpos one_pos)))
      simpa using this

theorem linkHub_pres (sp : ℕ) (st0 : BS) (hubIdx : ℕ)
    (hhub : hubIdx < st0.nodes.length) (h : EInv st0) :
    EInv (linkHub sp st0 hubIdx).1 ∧
      (linkHub sp st0 hubIdx).1.nodes.length = st0.nodes.length ∧
      (linkHub sp st0 hubIdx).1.nodes.map (fun nd => nd.hub) =
        st0.nodes.map (fun nd => nd.hub) := by
  have hcands : ∀ p ∈ candidatesFor sp st0.nodes hubIdx, p.1 < st0.nodes.length :=
    candidatesFor_lt sp st0.nodes hubIdx
  have h1 : EInv { st0 with s := (rngDraw st0.s).1 } ∧
      ({ st0 with s := (rngDraw st0.s).1 } : BS).nodes.length = st0.nodes.length ∧
      ({ st0 with s := (rngDraw st0.s).1 } : BS).nodes.map (fun nd => nd.hub) =
        st0.nodes.map (fun nd => nd.hub) := ⟨h, rfl, rfl⟩
  have h2 := nearPhase_bundle hubIdx (8 + xorshift st0.s * 8 / two32)
    (candidatesFor sp st0.nodes hubIdx) _ st0.nodes.length
    (st0.nodes.map (fun nd => nd.hub)) hhub hcands h1
  set st2 := nearPhase hubIdx (8 + xorshift st0.s * 8 / two32)
    (candidatesFor sp st0.nodes hubIdx) { st0 with s := (rngDraw st0.s).1 } with hst2
  have h3 : EInv { st2 with s := (rngDraw st2.s).1 } ∧
      ({ st2 with s := (rngDraw st2.s).1 } : BS).nodes.length = st0.nodes.length ∧
      ({ st2 with s := (rngDraw st2.s).1 } : BS).nodes.map (fun nd => nd.hub) =
        st0.nodes.map (fun nd => nd.hub) := ⟨h2.1, h2.2.1, h2.2.2⟩
  have h4 := farPhase_bundle hubIdx (2 + xorshift st2.s * 2 / two32)
    (candidatesFor sp st0.nodes hubIdx) _ st0.nodes.length
    (st0.nodes.map (fun nd => nd.hub)) hhub hcands h3
  exact h4

theorem near_draw_le (s : ℕ) : 8 + xorshift s * 8 / two32 ≤ 15 := by
  have h : xorshift s * 8 / two32 < 8 := by
    rw [Nat.div_lt_iff_lt_mul (by decide : 0 < two32)]
    nlinarith [xorshift_lt s]
  omega

theorem far_draw_le (s : ℕ) : 2 + xorshift s * 2 / two32 ≤ 3 := by
  have h : xorshift s * 2 / two32 < 2 := by
    rw [Nat.div_lt_iff_lt_mul (by decide : 0 < two32)]
    nlinarith [xorshift_lt s]
  omega

theorem nearPhase_edges_le (hubIdx links : ℕ) (cands : List (ℕ × ℚ)) (st : BS) :
    (nearPhase hubIdx links cands st).edges.length ≤
      st.edges.length + min links cands.length := by
  unfold nearPhase
  exact (foldl_le_step (fun (st2 : BS) => st2.edges.length) _ _ _
    (fun acc k => addEdge_edges_le _ _ _)).trans (by simp)

theorem farPhase_edges_le (hubIdx farLinks : ℕ) (cands : List (ℕ × ℚ)) (st : BS) :
    (farPhase hubIdx farLinks cands st).edges.length ≤
      st.edges.length + farLinks := by
  unfold farPhase
  refine (foldl_le_step (fun (st2 : BS) => st2.edges.length) _ _ _ ?_).trans
    (by simp)
  intro acc k
  dsimp only
  split
  · exact Nat.le_succ _
  · exact addEdge_edges_le _ _ _

theorem farPhase_edges_eq_zero (hubIdx farLinks : ℕ) (cands : List (ℕ × ℚ))
    (st : BS) (hc : cands.length = 0) :
    (farPhase hubIdx farLinks cands st).edges.length = st.edges.length := by
  unfold farPhase
  refine foldl_pres (fun (st2 : BS) => st2.edges.length = st.edges.length)
    _ _ _ rfl ?_
  intro acc k _ hP
  dsimp only
  rw [if_pos hc]
  exact hP

theorem linkHub_stat (sp : ℕ) (st0 : BS) (hubIdx : ℕ) :
    8 ≤ (linkHub sp st0 hubIdx).2.near ∧ (linkHub sp st0 hubIdx).2.near ≤ 15 ∧
      2 ≤ (linkHub sp st0 hubIdx).2.far ∧ (linkHub sp st0 hubIdx).2.far ≤ 3 ∧
      (linkHub sp st0 hubIdx).2.added ≤
        min (linkHub sp st0 hubIdx).2.near (linkHub sp st0 hubIdx).2.cand +
          (if (linkHub sp st0 hubIdx).2.cand = 0 then 0
            else (linkHub sp st0 hubIdx).2.far) := by
  refine ⟨Nat.le_add_right 8 _, near_draw_le st0.s, Nat.le_add_right 2 _,
    far_draw_le _, ?_⟩
  show (farPhase hubIdx
      (2 + xorshift (nearPhase hubIdx (8 + xorshift st0.s * 8 / two32)
        (candidatesFor sp st0.nodes hubIdx)
        { st0 with s := (rngDraw st0.s).1 }).s * 2 / two32)
      (candidatesFor sp st0.nodes hubIdx)
      { nearPhase hubIdx (8 + xorshift st0.s * 8 / two32)
          (candidatesFor sp st0.nodes hubIdx)
          { st0 with s := (rngDraw st0.s).1 } with
        s := (rngDraw (nearPhase hubIdx (8 + xorshift st0.s * 8 / two32)
          (candidatesFor sp st0.nodes hubIdx)
          { st0 with s := (rngDraw st0.s).1 }).s).1 }).edges.length
      - st0.edges.length ≤
    min (8 + xorshift st0.s * 8 / two32)
      (candidatesFor sp st0.nodes hubIdx).length +
      (if (candidatesFor sp st0.nodes hubIdx).length = 0 then 0
        else 2 + xorshift (nearPhase hubIdx (8 + xorshift st0.s * 8 / two32)
          (candidatesFor sp st0.nodes hubIdx)
          { st0 with s := (rngDraw st0.s).1 }).s * 2 / two32)
  set C := candidatesFor sp st0.nodes hubIdx
  set S1 : BS := { st0 with s := (rngDraw st0.s).1 }
  set S2 := nearPhase hubIdx (8 + xorshift st0.s * 8 / two32) C S1
  set S3 : BS := { S2 with s := (rngDraw S2.s).1 }
  have e1 : S1.edges.length = st0.edges.length := rfl
  have e3 : S3.edges.length = S2.edges.length := rfl
  have hnear : S2.edges.length ≤
      S1.edges.length + min (8 + xorshift st0.s * 8 / two32) C.length :=
    nearPhase_edges_le hubIdx (8 + xorshift st0.s * 8 / two32) C S1
  generalize hM : min (8 + xorshift st0.s * 8 / two32) C.length = M at hnear ⊢
  clear hM
  rcases Nat.eq_zero_or_pos C.length with hc | hc
  · have heq : (farPhase hubIdx (2 + xorshift S2.s * 2 / two32) C S3).edges.length =
        S3.edges.length :=
      farPhase_edges_eq_zero hubIdx (2 + xorshift S2.s * 2 / two32) C S3 hc
    rw [if_pos hc]
    omega
  · have hle : (farPhase hubIdx (2 + xorshift S2.s * 2 / two32) C S3).edges.length ≤
        S3.edges.length + (2 + xorshift S2.s * 2 / two32) :=
      farPhase_edges_le hubIdx (2 + xorshift S2.s * 2 / two32) C S3
    rw [if_neg (by omega)]
    generalize xorshift S2.s * 2 / two32 = d at hle ⊢
    omega

theorem linkHubs_pres (sp : ℕ) (st0 : BS) (chosen : List ℕ)
    (hch : ∀ j ∈ chosen, j < st0.nodes.length) (h : EInv st0) :
    EInv (linkHubs sp st0 chosen).1 ∧
      (linkHubs sp st0 chosen).1.nodes.length = st0.nodes.length ∧
      (linkHubs sp st0 chosen).1.nodes.map (fun nd => nd.hub) =
        st0.nodes.map (fun nd => nd.hub) := by
  unfold linkHubs
  have aux : ∀ (l : List ℕ) (acc : BS × List HubStat),
      (∀ j ∈ l, j < st0.nodes.length) →
      (EInv acc.1 ∧ acc.1.nodes.length = st0.nodes.length ∧
        acc.1.nodes.map (fun nd => nd.hub) =
          st0.nodes.map (fun nd => nd.hub)) →
      (EInv (l.foldl (fun acc2 hubIdx =>
          ((linkHub sp acc2.1 hubIdx).1,
            acc2.2 ++ [(linkHub sp acc2.1 hubIdx).2])) acc).1 ∧
        (l.foldl (fun acc2 hubIdx =>
          ((linkHub sp acc2.1 hubIdx).1,
            acc2.2 ++ [(linkHub sp acc2.1 hubIdx).2])) acc).1.nodes.length =
          st0.nodes.length ∧
        (l.foldl (fun acc2 hubIdx =>
          ((linkHub sp acc2.1 hubIdx).1,
            acc2.2 ++ [(linkHub sp acc2.1 hubIdx).2])) acc).1.nodes.map
          (fun nd => nd.hub) = st0.nodes.map (fun nd => nd.hub)) := by
    intro l
    induction l with
    | nil => intro acc _ hP; exact hP
    | cons c t ih =>
      intro acc hl hP
      have hc : c < st0.nodes.length := hl c (List.mem_cons_self c t)
      have hstep := linkHub_pres sp acc.1 c (hP.2.1.symm ▸ hc) hP.1
      exact ih _ (fun j hj => hl j (List.mem_cons_of_mem c hj))
        ⟨hstep.1, hstep.2.1.trans hP.2.1, hstep.2.2.trans hP.2.2⟩
  exact aux chosen (st0, []) hch ⟨h, rfl, rfl⟩

theorem linkHubs_stats (sp : ℕ) (st0 : BS) (chosen : List ℕ) :
    ∀ s ∈ (linkHubs sp st0 chosen).2,
      ∃ st1 hub, s = (linkHub sp st1 hub).2 := by
  unfold linkHubs
  have aux : ∀ (l : List ℕ) (acc : BS × List HubStat),
      ∀ s ∈ (l.foldl (fun acc2 hubIdx =>
          ((linkHub sp acc2.1 hubIdx).1,
            acc2.2 ++ [(linkHub sp acc2.1 hubIdx).2])) acc).2,
        s ∈ acc.2 ∨ ∃ st1 hub, s = (linkHub sp st1 hub).2 := by
    intro l
    induction l with
    | nil => intro acc s hs; exact Or.inl hs
    | cons c t ih =>
      intro acc s hs
      rcases ih _ s hs with hmem | hex
      · rw [List.mem_append] at hmem
        rcases hmem with hmem | hmem
        · exact Or.inl hmem
        · rw [List.mem_singleton] at hmem
          exact Or.inr ⟨acc.1, c, hmem⟩
      · exact Or.inr hex
  intro s hs
  rcases aux chosen (st0, []) s hs with hmem | hex
  · simp at hmem
  · exact hex

theorem grid_ge_one (w h : ℕ) : 1 ≤ rowsOf w h * colsOf w := by
  have h1 : 3 ≤ rowsOf w h := by unfold rowsOf; exact Nat.le_add_left 3 _
  have h2 : 3 ≤ colsOf w := by unfold colsOf; exact Nat.le_add_left 3 _
  calc 1 ≤ 3 * 3 := by omega
    _ ≤ rowsOf w h * colsOf w := Nat.mul_le_mul h1 h2

theorem buildGraphFull_pipeline (w h : ℕ) :
    ∃ chosen : List ℕ,
      chosen.Nodup ∧ chosen ≠ [] ∧
      chosen.length ≤ hubCountOf (rowsOf w h * colsOf w) ∧
      (buildGraph w h).nodes.length = rowsOf w h * colsOf w ∧
      countHubs (buildGraph w h) = chosen.length ∧
      (∀ e ∈ (buildGraph w h).edges,
        e.1 ≠ e.2 ∧ e.1 < (buildGraph w h).nodes.length ∧
          e.2 < (buildGraph w h).nodes.length) ∧
      ((buildGraph w h).edges.map canon).Nodup ∧
      (seedMix w h = 0 → chosen = [0]) := by
  unfold buildGraph buildGraphFull
  dsimp only
  set bn := buildNodes w h (seedMix w h) with hbn
  set st0 : BS := { nodes := bn.1, edges := [], keys := [], s := bn.2 } with hst0
  set st1 := meshEdges (rowsOf w h) (colsOf w) st0 with hst1
  set n := st1.nodes.length with hn
  set sel := selectHubs n (hubCountOf n) st1.nodes st1.s with hseldef
  set st2 : BS := { st1 with nodes := sel.1, s := sel.2.2 } with hst2
  set lk := linkHubs (spacingOf w) st2 sel.2.1 with hlkdef
  have hbn_len : bn.1.length = rowsOf w h * colsOf w := buildNodes_length w h _
  have hinv0 : EInv st0 := ⟨by intro e he; simp at he, rfl, List.nodup_nil⟩
  have hm := meshEdges_pres (rowsOf w h) (colsOf w) st0 hinv0 hbn_len
  have hn_eq : n = rowsOf w h * colsOf w := hm.2.1
  have hn1 : 1 ≤ n := hn_eq ▸ grid_ge_one w h
  have hsel := selectHubs_spec n (hubCountOf n) st1.nodes st1.s hn1 rfl
  have hflags1 : ∀ nd ∈ st1.nodes, nd.hub = false :=
    hub_false_of_map_eq st1.nodes st0.nodes hm.2.2.1 (buildNodes_hub_false w h _)
  have hcnt := selectHubs_countP n (hubCountOf n) st1.nodes st1.s hn1 rfl hflags1
  have hst2_len : st2.nodes.length = n := by
    show sel.1.length = n
    exact hsel.1
  have hinv2 : EInv st2 := by
    obtain ⟨hval, hkeys, hnd⟩ := hm.1
    refine ⟨?_, hkeys, hnd⟩
    intro e he
    have hv := hval e he
    rw [hst2_len]
    exact hv
  have hch : ∀ j ∈ sel.2.1, j < st2.nodes.length := by
    intro j hj
    rw [hst2_len]
    exact hsel.2.2.1 j hj
  have hlk := linkHubs_pres (spacingOf w) st2 sel.2.1 hch hinv2
  refine ⟨sel.2.1, hsel.2.1, ?_, ?_, ?_, ?_, ?_, ?_, ?_⟩
  · exact selectHubs_chosen_ne_nil n (hubCountOf n) st1.nodes st1.s
      (by unfold hubCountOf; omega)
  · rw [← hn_eq]
    exact selectHubs_length_le n (hubCountOf n) st1.nodes st1.s
  · show lk.1.nodes.length = rowsOf w h * colsOf w
    rw [hlk.2.1, hst2_len, hn_eq]
  · show lk.1.nodes.countP (fun nd => nd.hub) = sel.2.1.length
    rw [countP_of_map_hub_eq lk.1.nodes st2.nodes hlk.2.2]
    exact hcnt
  · intro e he
    replace he : e ∈ lk.1.edges := he
    have hv := hlk.1.1 e he
    exact ⟨hv.1, hv.2.1, hv.2.2⟩
  · show (lk.1.edges.map canon).Nodup
    rw [← hlk.1.2.1]
    exact hlk.1.2.2
  · intro hz
    have hs0 : bn.2 = 0 := by
      rw [hbn, hz]
      exact buildNodes_s_zero w h
    have hs1 : st1.s = 0 := by
      rw [hm.2.2.2]
      exact hs0
    rw [hseldef, hs1]
    exact (selectHubs_zero n (hubCountOf n) st1.nodes (by unfold hubCountOf; omega)).1

theorem hubCountOf_eq_round (n : ℕ) :
    (hubCountOf n : ℤ) = max 8 (jsRound ((n : ℚ) * (24/1000))) := by
  unfold hubCountOf jsRound
  have h1 : (n : ℚ) * (24/1000) + 1/2 =
      ((48 * n + 1000 : ℕ) : ℚ) / ((2000 : ℕ) : ℚ) := by
    push_cast
    ring
  rw [h1, Rat.floor_natCast_div_natCast]
  push_cast
  rfl

theorem linkHubs_stat_bounds (sp : ℕ) (st0 : BS) (chosen : List ℕ) :
    ∀ s ∈ (linkHubs sp st0 chosen).2,
      8 ≤ s.near ∧ s.near ≤ 15 ∧ 2 ≤ s.far ∧ s.far ≤ 3 ∧
        s.added ≤ min s.near s.cand + (if s.cand = 0 then 0 else s.far) := by
  intro s hs
  obtain ⟨st1, hub, rfl⟩ := linkHubs_stats sp st0 chosen s hs
  exact linkHub_stat sp st1 hub

/-- C2: every edge of a built graph joins two distinct valid node indices,
and no unordered pair occurs twice: the canonical min-max keys of the edge
list are pairwise distinct. -/
theorem edges_wellformed (w h : ℕ) :
    (∀ e ∈ (buildGraph w h).edges,
      e.1 ≠ e.2 ∧ e.1 < (buildGraph w h).nodes.length ∧
        e.2 < (buildGraph w h).nodes.length) ∧
      ((buildGraph w h).edges.map canon).Nodup := by
  obtain ⟨chosen, hnodup, hne, hle, hlen, hcnt, hval, hcanon, hz⟩ :=
    buildGraphFull_pipeline w h
  exact ⟨hval, hcanon⟩

theorem edges_wellformed_witness :
    ((0, 1) ∈ (buildGraph 1 1).edges ∧
        (0 : ℕ) ≠ (1 : ℕ) ∧ 0 < (buildGraph 1 1).nodes.length ∧
        1 < (buildGraph 1 1).nodes.length) ∧
      ((buildGraph 1 1).edges.map canon).Nodup :=
  ⟨⟨by decide, (edges_wellformed 1 1).1 (0, 1) (by decide)⟩,
    (edges_wellformed 1 1).2⟩

/-- C3 (counterexample): at viewport 66543743 × 2 the seed mix is exactly 0,
the xorshift generator then returns 0 forever, every hub-selection round
redraws node 0, and the finished graph carries exactly one hub-flagged node
while `max 8 (round(0.024 n))` is at least 8. -/
theorem hub_count_counterexample :
    countHubs (buildGraph 66543743 2) ≠
      hubCountOf (buildGraph 66543743 2).nodes.length := by
  obtain ⟨chosen, hnodup, hne, hle, hlen, hcnt, hval, hcanon, hz⟩ :=
    buildGraphFull_pipeline 66543743 2
  have hzero : seedMix 66543743 2 = 0 := by decide
  rw [hcnt, hz hzero]
  intro hcontra
  have h8 : 8 ≤ hubCountOf (buildGraph 66543743 2).nodes.length :=
    le_max_left 8 _
  rw [← hcontra] at h8
  simp at h8

/-- C3 (amended): the number of hub-flagged nodes of a built graph is at
least 1 and at most `max 8 (round(0.024 n))` — it can fall short of that
target when the degenerate seed makes the selection loop redraw the same
node, so only an upper bound holds in general. -/
theorem hub_count_bounds (w h : ℕ) :
    1 ≤ countHubs (buildGraph w h) ∧
      countHubs (buildGraph w h) ≤
        hubCountOf (buildGraph w h).nodes.length ∧
      (hubCountOf (buildGraph w h).nodes.length : ℤ) =
        max 8 (jsRound (((buildGraph w h).nodes.length : ℚ) * (24/1000))) := by
  obtain ⟨chosen, hnodup, hne, hle, hlen, hcnt, hval, hcanon, hz⟩ :=
    buildGraphFull_pipeline w h
  refine ⟨?_, ?_, hubCountOf_eq_round _⟩
  · rw [hcnt]
    exact List.length_pos.mpr hne
  · rw [hcnt, hlen]
    exact hle

/-- C4 (counterexample): at viewport 1 × 1 some hub's added edge count is
not `min(near, cand) + min(far, cand − near)`: near links that duplicate an
existing mesh edge are silently skipped, so fewer edges are added. -/
theorem hub_links_counterexample :
    ¬ ∀ s ∈ (buildGraphFull 1 1).2,
        s.added = min s.near s.cand +
          min s.far (s.cand - min s.near s.cand) := by
  decide

/-- C4 (amended): every hub's drawn near-link count lies in 8..15 and its
far-link count in 2..3, and the edges actually added for that hub are at
most `min(near, cand)` plus (when any candidate exists) `far`; duplicates
of existing edges are skipped, so this is an upper bound, not an equality. -/
theorem hub_links_bounds (w h : ℕ) :
    ∀ s ∈ (buildGraphFull w h).2,
      8 ≤ s.near ∧ s.near ≤ 15 ∧ 2 ≤ s.far ∧ s.far ≤ 3 ∧
        s.added ≤ min s.near s.cand + (if s.cand = 0 then 0 else s.far) := by
  intro s hs
  exact linkHubs_stat_bounds (spacingOf w) _ _ s hs

theorem hub_links_bounds_witness :
    (buildGraphFull 1 1).2.getD 0 ⟨0, 0, 0, 0, 0⟩ ∈ (buildGraphFull 1 1).2 ∧
      (8 ≤ ((buildGraphFull 1 1).2.getD 0 ⟨0, 0, 0, 0, 0⟩).near ∧
        ((buildGraphFull 1 1).2.getD 0 ⟨0, 0, 0, 0, 0⟩).near ≤ 15 ∧
        2 ≤ ((buildGraphFull 1 1).2.getD 0 ⟨0, 0, 0, 0, 0⟩).far ∧
        ((buildGraphFull 1 1).2.getD 0 ⟨0, 0, 0, 0, 0⟩).far ≤ 3 ∧
        ((buildGraphFull 1 1).2.getD 0 ⟨0, 0, 0, 0, 0⟩).added ≤
          min ((buildGraphFull 1 1).2.getD 0 ⟨0, 0, 0, 0, 0⟩).near
              ((buildGraphFull 1 1).2.getD 0 ⟨0, 0, 0, 0, 0⟩).cand +
            (if ((buildGraphFull 1 1).2.getD 0 ⟨0, 0, 0, 0, 0⟩).cand = 0 then 0
              else ((buildGraphFull 1 1).2.getD 0 ⟨0, 0, 0, 0, 0⟩).far)) :=
  ⟨by decide, hub_links_bounds 1 1 _ (by decide)⟩
